import Mathlib

/-!
Shallow embedding of `taskflow/utils/threading_utils.py` (class `ThreadBundle`),
together with proofs of the specification's claims about it.

Modelling conventions:
* Thread handles are opaque identifiers (`Nat`), allocated freshly from a
  counter `nextId` each time a factory call succeeds; `none` models a slot
  whose `thread` field is Python's `None`.
* Every external call (a factory, a lifecycle callback, `Thread.start`,
  `Thread.join`) consumes one tick of a global call counter `clock`; whether
  the call raises is an arbitrary boolean function of the tick, so a run is
  parameterised by adversarial raise behaviours.
* `factoryCalls` is a ghost counter of factory invocations and `evs` is a
  ghost trace of attempted external calls; both are pure instrumentation.
-/

namespace ThreadingUtils

/-- Raise behaviour of an external callable: `true` at tick `t` means the
call made at tick `t` raises an exception. -/
def Behavior : Type := Nat → Bool

/-- A Python value passed as an argument to `ThreadBundle.bind`: `None`,
a callable (carrying its raise behaviour), or some non-callable object. -/
inductive Arg where
  | vNone : Arg
  | vCallable : Behavior → Arg
  | vNotCallable : Arg

/-- `six.callable` applied to a bind argument. -/
def Arg.isCallable : Arg → Bool
  | .vCallable _ => true
  | _ => false

/-- The hook stored in the builder for an optional callback argument. -/
def Arg.toHook : Arg → Option Behavior
  | .vCallable f => some f
  | _ => none

/-- The behaviour of a factory argument (meaningful once validated callable). -/
def Arg.factoryBehavior : Arg → Behavior
  | .vCallable f => f
  | _ => fun _ => false

/-- The `_ThreadBuilder` namedtuple: thread factory plus four optional
lifecycle callbacks (lines 81-92 of the source). -/
structure Builder where
  thread_factory : Behavior
  before_start : Option Behavior
  after_start : Option Behavior
  before_join : Option Behavior
  after_join : Option Behavior

/-- One element of `ThreadBundle._threads`: the mutable triple
`[builder, thread, started]` appended by `bind` (lines 124-131). -/
structure Slot where
  builder : Builder
  thread : Option Nat
  started : Bool

/-- A slot the `start` loop skips: thread present and started
(`if thread and started: continue`, line 144). -/
def running (s : Slot) : Bool := s.thread.isSome && s.started

/-- Default slot used by positional `getD` lookups in statements. -/
def defaultSlot : Slot :=
  ⟨⟨fun _ => false, none, none, none, none⟩, none, false⟩

/-- The `ThreadBundle` state: the slot list plus ghost instrumentation
(`clock` ticks per external call, `nextId` allocates fresh thread ids,
`factoryCalls` counts factory invocations). -/
structure Bundle where
  threads : List Slot
  clock : Nat
  nextId : Nat
  factoryCalls : Nat

/-- A freshly constructed `ThreadBundle()` (lines 98-100). -/
def initBundle : Bundle := ⟨[], 0, 0, 0⟩

/-- Environment behaviour of the thread primitives: whether `Thread.start`
resp. `Thread.join` raises at a given tick. -/
structure Env where
  startRaises : Behavior
  joinRaises : Behavior

/-- Exceptions that can propagate out of `bind` / `start` / `stop`,
tagged with the tick at which the raising call was made. -/
inductive Exc where
  | valueError : String → Exc
  | factoryRaise : Nat → Exc
  | beforeStartRaise : Nat → Exc
  | startRaise : Nat → Exc
  | afterStartRaise : Nat → Exc
  | beforeJoinRaise : Nat → Exc
  | joinRaise : Nat → Exc
  | afterJoinRaise : Nat → Exc
deriving DecidableEq

/-- Ghost trace events: each attempted external call, tagged with the index
of the slot being processed. -/
inductive Ev where
  | factoryCall : Nat → Ev
  | beforeStartCall : Nat → Ev
  | threadStart : Nat → Ev
  | afterStartCall : Nat → Ev
  | beforeJoinCall : Nat → Ev
  | threadJoin : Nat → Ev
  | afterJoinCall : Nat → Ev
deriving DecidableEq

/-- The slot index an event belongs to. -/
def evIdx : Ev → Nat
  | .factoryCall j => j
  | .beforeStartCall j => j
  | .threadStart j => j
  | .afterStartCall j => j
  | .beforeJoinCall j => j
  | .threadJoin j => j
  | .afterJoinCall j => j

/-- Validity of an optional-callback argument in `bind`'s validation loop:
`None` is allowed, otherwise the value must be callable (lines 116-122). -/
def hookOk : Arg → Bool
  | .vNone => true
  | .vCallable _ => true
  | .vNotCallable => false

/-- `ThreadBundle.bind` (lines 102-131): validate the factory and the four
optional callbacks in the order of `_ThreadBuilder.callables`, raising
`ValueError` naming the first offending argument, then append the fresh
slot `[builder, None, False]`. -/
def bind (b : Bundle) (thread_factory bst ast bjn ajn : Arg) : Except Exc Bundle :=
  if thread_factory.isCallable then
    if hookOk bst then
      if hookOk ast then
        if hookOk bjn then
          if hookOk ajn then
            .ok ⟨b.threads ++
                  [⟨⟨thread_factory.factoryBehavior, bst.toHook, ast.toHook,
                      bjn.toHook, ajn.toHook⟩, none, false⟩],
                 b.clock, b.nextId, b.factoryCalls⟩
          else .error (.valueError "after_join")
        else .error (.valueError "before_join")
      else .error (.valueError "after_start")
    else .error (.valueError "before_start")
  else .error (.valueError "thread_factory")

/-- Replace a slot's thread field. -/
def Slot.setThread (s : Slot) (t : Option Nat) : Slot := ⟨s.builder, t, s.started⟩

/-- Replace a slot's started flag. -/
def Slot.setStarted (s : Slot) (v : Bool) : Slot := ⟨s.builder, s.thread, v⟩

/-- Result of one iteration of `start`'s loop on a single slot. -/
structure SRes where
  slot : Slot
  clock : Nat
  nextId : Nat
  fc : Nat
  counted : Bool
  exc : Option Exc
  evs : List Ev

/-- `start`'s per-slot tail once the thread handle exists (lines 149-156):
`thread.start()`, increment the count, then `after_start` inside a
`try/finally` that always sets `started = True`. -/
def startThread (env : Env) (i : Nat) (s : Slot) (clock nextId fc : Nat)
    (evs : List Ev) : SRes :=
  if env.startRaises clock then
    ⟨s, clock + 1, nextId, fc, false, some (.startRaise clock),
      evs ++ [.threadStart i]⟩
  else
    match s.builder.after_start with
    | some f =>
        if f (clock + 1) then
          ⟨s.setStarted true, clock + 2, nextId, fc, true,
            some (.afterStartRaise (clock + 1)),
            evs ++ [.threadStart i, .afterStartCall i]⟩
        else
          ⟨s.setStarted true, clock + 2, nextId, fc, true, none,
            evs ++ [.threadStart i, .afterStartCall i]⟩
    | none =>
        ⟨s.setStarted true, clock + 1, nextId, fc, true, none,
          evs ++ [.threadStart i]⟩

/-- `start`'s per-slot body once construction is settled (lines 148-156):
trigger `before_start` if present, then start the thread. -/
def startHooks (env : Env) (i : Nat) (s : Slot) (clock nextId fc : Nat) : SRes :=
  match s.builder.before_start with
  | some f =>
      if f clock then
        ⟨s, clock + 1, nextId, fc, false, some (.beforeStartRaise clock),
          [.beforeStartCall i]⟩
      else startThread env i s (clock + 1) nextId fc [.beforeStartCall i]
  | none => startThread env i s clock nextId fc []

/-- Prepend ghost events to a per-slot result. -/
def SRes.withEvs (r : SRes) (evs : List Ev) : SRes :=
  ⟨r.slot, r.clock, r.nextId, r.fc, r.counted, r.exc, evs ++ r.evs⟩

/-- One iteration of `start`'s loop (lines 143-156) on the slot at index `i`:
skip it when its thread is present and started, construct the thread via the
factory when it is absent, then run the hook/start sequence. -/
def startOne (env : Env) (i : Nat) (s : Slot) (clock nextId fc : Nat) : SRes :=
  if running s then
    ⟨s, clock, nextId, fc, false, none, []⟩
  else
    match s.thread with
    | some _ => startHooks env i s clock nextId fc
    | none =>
        if s.builder.thread_factory clock then
          ⟨s, clock + 1, nextId, fc + 1, false, some (.factoryRaise clock),
            [.factoryCall i]⟩
        else
          (startHooks env i (s.setThread (some nextId))
              (clock + 1) (nextId + 1) (fc + 1)).withEvs [.factoryCall i]

/-- Accumulated result of `start`'s loop. -/
structure LRes where
  slots : List Slot
  clock : Nat
  nextId : Nat
  fc : Nat
  count : Nat
  exc : Option Exc
  evs : List Ev

/-- `start`'s loop over `enumerate(self._threads)` (lines 142-156) beginning
at index `i`; an exception aborts the walk, keeping the mutations made so
far and leaving the remaining slots untouched. -/
def startLoop (env : Env) (i clock nextId fc : Nat) : List Slot → LRes
  | [] => ⟨[], clock, nextId, fc, 0, none, []⟩
  | s :: rest =>
      let r := startOne env i s clock nextId fc
      match r.exc with
      | some e => ⟨r.slot :: rest, r.clock, r.nextId, r.fc, 0, some e, r.evs⟩
      | none =>
          let rr := startLoop env (i + 1) r.clock r.nextId r.fc rest
          ⟨r.slot :: rr.slots, rr.clock, rr.nextId, rr.fc,
            (if r.counted then 1 else 0) + rr.count, rr.exc, r.evs ++ rr.evs⟩

/-- Outcome of a whole `start()` or `stop()` call: the mutated bundle, the
returned count or the propagated exception, and the ghost trace. -/
structure RunRes where
  bundle : Bundle
  result : Except Exc Nat
  evs : List Ev

/-- `ThreadBundle.start` (lines 138-157). On an exception the mutations made
so far persist in the bundle while the exception propagates. -/
def start (env : Env) (b : Bundle) : RunRes :=
  let r := startLoop env 0 b.clock b.nextId b.factoryCalls b.threads
  ⟨⟨r.slots, r.clock, r.nextId, r.fc⟩,
    match r.exc with
    | some e => .error e
    | none => .ok r.count,
    r.evs⟩

/-- Result of one iteration of `stop`'s loop on a single slot. -/
structure PRes where
  slot : Slot
  clock : Nat
  counted : Bool
  exc : Option Exc
  evs : List Ev

/-- `stop`'s per-slot tail (lines 168-176): `thread.join()`, increment the
count, then `after_join` inside a `try/finally` that always resets the slot
to `[builder, None, False]`. -/
def joinThread (env : Env) (i : Nat) (s : Slot) (clock : Nat)
    (evs : List Ev) : PRes :=
  if env.joinRaises clock then
    ⟨s, clock + 1, false, some (.joinRaise clock), evs ++ [.threadJoin i]⟩
  else
    match s.builder.after_join with
    | some f =>
        if f (clock + 1) then
          ⟨⟨s.builder, none, false⟩, clock + 2, true,
            some (.afterJoinRaise (clock + 1)),
            evs ++ [.threadJoin i, .afterJoinCall i]⟩
        else
          ⟨⟨s.builder, none, false⟩, clock + 2, true, none,
            evs ++ [.threadJoin i, .afterJoinCall i]⟩
    | none => ⟨⟨s.builder, none, false⟩, clock + 1, true, none,
        evs ++ [.threadJoin i]⟩

/-- One iteration of `stop`'s loop (lines 164-176) on the slot at index `i`:
skip it when its thread is absent or not started
(`if not thread or not started: continue`), otherwise trigger `before_join`
if present and join the thread. -/
def stopOne (env : Env) (i : Nat) (s : Slot) (clock : Nat) : PRes :=
  if running s then
    match s.builder.before_join with
    | some f =>
        if f clock then
          ⟨s, clock + 1, false, some (.beforeJoinRaise clock),
            [.beforeJoinCall i]⟩
        else joinThread env i s (clock + 1) [.beforeJoinCall i]
    | none => joinThread env i s clock []
  else ⟨s, clock, false, none, []⟩

/-- Accumulated result of `stop`'s loop. -/
structure QRes where
  slots : List Slot
  clock : Nat
  count : Nat
  exc : Option Exc
  evs : List Ev

/-- `stop`'s loop over `misc.reverse_enumerate(self._threads)` (lines
163-176), with `i` the index of the list head. Modelled from the spec:
`taskflow.utils.misc.reverse_enumerate` is not under `src/`; per the spec,
`stop` walks the slots in reverse insertion order (last index first), so the
tail of the list is processed before the head. -/
def stopLoop (env : Env) (i clock : Nat) : List Slot → QRes
  | [] => ⟨[], clock, 0, none, []⟩
  | s :: rest =>
      let rr := stopLoop env (i + 1) clock rest
      match rr.exc with
      | some e => ⟨s :: rr.slots, rr.clock, rr.count, some e, rr.evs⟩
      | none =>
          let r := stopOne env i s rr.clock
          ⟨r.slot :: rr.slots, r.clock,
            rr.count + (if r.counted then 1 else 0), r.exc, rr.evs ++ r.evs⟩

/-- `ThreadBundle.stop` (lines 159-177). -/
def stop (env : Env) (b : Bundle) : RunRes :=
  let r := stopLoop env 0 b.clock b.threads
  ⟨⟨r.slots, r.clock, b.nextId, b.factoryCalls⟩,
    match r.exc with
    | some e => .error e
    | none => .ok r.count,
    r.evs⟩

/-- `ThreadBundle.__len__` (lines 179-181). -/
def Bundle.len (b : Bundle) : Nat := b.threads.length

/-- An operation applied to a bundle, for reachability statements. -/
inductive Op where
  | opBind : Arg → Arg → Arg → Arg → Arg → Op
  | opStart : Env → Op
  | opStop : Env → Op

/-- Apply one operation; a `bind` that raises leaves the bundle unchanged,
and a `start`/`stop` that raises keeps the mutations made before the raise. -/
def applyOp (b : Bundle) : Op → Bundle
  | .opBind f bst ast bjn ajn =>
      match bind b f bst ast bjn ajn with
      | .ok b2 => b2
      | .error _ => b
  | .opStart env => (start env b).bundle
  | .opStop env => (stop env b).bundle

/-- The bundle reached from a fresh `ThreadBundle()` by a sequence of
operations. -/
def run (ops : List Op) : Bundle := ops.foldl applyOp initBundle

/-- Indices of the `threadStart` events of a trace, in trace order. -/
def startsOf (evs : List Ev) : List Nat :=
  evs.filterMap fun e => match e with | .threadStart j => some j | _ => none

/-- Indices of the `threadJoin` events of a trace, in trace order. -/
def joinsOf (evs : List Ev) : List Nat :=
  evs.filterMap fun e => match e with | .threadJoin j => some j | _ => none

/-- Indices of the `factoryCall` events of a trace, in trace order. -/
def factsOf (evs : List Ev) : List Nat :=
  evs.filterMap fun e => match e with | .factoryCall j => some j | _ => none

/-- Indices (offset by `i`) of the slots not currently running. -/
def pendingIdx (i : Nat) : List Slot → List Nat
  | [] => []
  | s :: rest =>
      if running s then pendingIdx (i + 1) rest
      else i :: pendingIdx (i + 1) rest

/-- Indices (offset by `i`) of the slots currently running. -/
def runningIdx (i : Nat) : List Slot → List Nat
  | [] => []
  | s :: rest =>
      if running s then i :: runningIdx (i + 1) rest
      else runningIdx (i + 1) rest

/-- Indices (offset by `i`) of the slots whose thread is absent. -/
def absentIdx (i : Nat) : List Slot → List Nat
  | [] => []
  | s :: rest =>
      match s.thread with
      | none => i :: absentIdx (i + 1) rest
      | some _ => absentIdx (i + 1) rest

/-- The per-slot invariant: a started slot holds a thread. -/
def SlotInv (s : Slot) : Prop := s.started = true → s.thread.isSome = true

/-- The bundle invariant: every slot satisfies `SlotInv`, and every stored
thread id was allocated below the `nextId` counter. -/
def BundleInv (b : Bundle) : Prop :=
  (∀ s ∈ b.threads, SlotInv s) ∧
  (∀ s ∈ b.threads, ∀ t, s.thread = some t → t < b.nextId)

/-- Environment whose thread primitives never raise (concrete runs). -/
def envW : Env := ⟨fun _ => false, fun _ => false⟩

/-- A callable bind argument that never raises. -/
def argOk : Arg := Arg.vCallable (fun _ => false)

/-- A callable bind argument that always raises when invoked. -/
def argRaise : Arg := Arg.vCallable (fun _ => true)

/-- One plain registration (no callbacks). -/
def opsW1 : List Op := [Op.opBind argOk Arg.vNone Arg.vNone Arg.vNone Arg.vNone]

/-- One plain registration, then a successful start. -/
def opsW2 : List Op := [Op.opBind argOk Arg.vNone Arg.vNone Arg.vNone Arg.vNone,
  Op.opStart envW]

/-- Three plain registrations. -/
def opsW3 : List Op := [Op.opBind argOk Arg.vNone Arg.vNone Arg.vNone Arg.vNone,
  Op.opBind argOk Arg.vNone Arg.vNone Arg.vNone Arg.vNone,
  Op.opBind argOk Arg.vNone Arg.vNone Arg.vNone Arg.vNone]

/-- One registration whose `before_start` always raises. -/
def opsC1w : List Op := [Op.opBind argOk argRaise Arg.vNone Arg.vNone Arg.vNone]

/-- One registration whose `after_start` always raises. -/
def opsC5w : List Op := [Op.opBind argOk Arg.vNone argRaise Arg.vNone Arg.vNone]

/-- One registration whose `after_join` always raises. -/
def opsC5j : List Op := [Op.opBind argOk Arg.vNone Arg.vNone Arg.vNone argRaise]

/-- One registration whose `after_join` always raises, started successfully. -/
def opsC5js : List Op := [Op.opBind argOk Arg.vNone Arg.vNone Arg.vNone argRaise,
  Op.opStart envW]

/-- Three registrations; the middle one's `before_start` always raises. -/
def opsC7w : List Op := [Op.opBind argOk Arg.vNone Arg.vNone Arg.vNone Arg.vNone,
  Op.opBind argOk argRaise Arg.vNone Arg.vNone Arg.vNone,
  Op.opBind argOk Arg.vNone Arg.vNone Arg.vNone Arg.vNone]

/-- One registration whose `before_start` always raises, after one failed
start: its slot holds a constructed thread with `started = false`. -/
def opsC10w : List Op := [Op.opBind argOk argRaise Arg.vNone Arg.vNone Arg.vNone,
  Op.opStart envW]

theorem startThread_spec (env : Env) (i : Nat) (s : Slot) (c n f : Nat)
    (evs : List Ev) (r : SRes) (hr : r = startThread env i s c n f evs) :
    r.slot.thread = s.thread ∧
    r.slot.builder = s.builder ∧
    r.nextId = n ∧
    r.fc = f ∧
    (r.slot = s ∨ r.slot = s.setStarted true) ∧
    (r.exc = none → r.slot = s.setStarted true ∧ r.counted = true) ∧
    (∀ e, r.exc = some e →
      (∃ t, e = Exc.startRaise t) ∨ (∃ t, e = Exc.afterStartRaise t)) ∧
    (∀ t, r.exc = some (Exc.afterStartRaise t) →
      r.slot.started = true ∧ r.evs.getLast? = some (Ev.afterStartCall i)) ∧
    startsOf r.evs = startsOf evs ++ [i] ∧
    factsOf r.evs = factsOf evs ∧
    (∀ e ∈ r.evs, e ∈ evs ∨ evIdx e = i) := by
  have hlast2 : ∀ (x y : Ev), (evs ++ [x, y]).getLast? = some y := by
    intro x y
    rw [List.getLast?_append_of_ne_nil evs (by simp)]
    rfl
  unfold startThread at hr
  cases hSR : env.startRaises c <;> simp only [hSR, if_true, if_false, Bool.false_eq_true,
      ite_true, ite_false] at hr
  · cases hAS : s.builder.after_start with
    | none =>
        simp only [hAS] at hr
        subst hr
        refine ⟨rfl, rfl, rfl, rfl, Or.inr rfl, fun _ => ⟨rfl, rfl⟩, ?_, ?_, ?_, ?_, ?_⟩
        · intro e he; cases he
        · intro t ht; cases ht
        · simp [startsOf, List.filterMap_append]
        · simp [factsOf, List.filterMap_append]
        · intro e he
          rcases List.mem_append.mp he with h | h
          · exact Or.inl h
          · right; simp only [List.mem_singleton] at h; subst h; rfl
    | some g =>
        simp only [hAS] at hr
        cases hG : g (c + 1) <;> simp only [hG, Bool.false_eq_true, ite_true, ite_false] at hr <;>
          subst hr
        · refine ⟨rfl, rfl, rfl, rfl, Or.inr rfl, fun _ => ⟨rfl, rfl⟩, ?_, ?_, ?_, ?_, ?_⟩
          · intro e he; cases he
          · intro t ht; cases ht
          · simp [startsOf, List.filterMap_append]
          · simp [factsOf, List.filterMap_append]
          · intro e he
            rcases List.mem_append.mp he with h | h
            · exact Or.inl h
            · right
              rcases List.mem_cons.mp h with h1 | h1
              · subst h1; rfl
              · simp only [List.mem_singleton] at h1; subst h1; rfl
        · refine ⟨rfl, rfl, rfl, rfl, Or.inr rfl, ?_, ?_, ?_, ?_, ?_, ?_⟩
          · intro h; cases h
          · intro e he
            right
            cases he
            exact ⟨c + 1, rfl⟩
          · intro t _
            exact ⟨rfl, hlast2 _ _⟩
          · simp [startsOf, List.filterMap_append]
          · simp [factsOf, List.filterMap_append]
          · intro e he
            rcases List.mem_append.mp he with h | h
            · exact Or.inl h
            · right
              rcases List.mem_cons.mp h with h1 | h1
              · subst h1; rfl
              · simp only [List.mem_singleton] at h1; subst h1; rfl
  · subst hr
    refine ⟨rfl, rfl, rfl, rfl, Or.inl rfl, ?_, ?_, ?_, ?_, ?_, ?_⟩
    · intro h; cases h
    · intro e he
      left
      cases he
      exact ⟨c, rfl⟩
    · intro t ht; cases ht
    · simp [startsOf, List.filterMap_append]
    · simp [factsOf, List.filterMap_append]
    · intro e he
      rcases List.mem_append.mp he with h | h
      · exact Or.inl h
      · right; simp only [List.mem_singleton] at h; subst h; rfl

theorem startHooks_spec (env : Env) (i : Nat) (s : Slot) (c n f : Nat)
    (r : SRes) (hr : r = startHooks env i s c n f) :
    r.slot.thread = s.thread ∧
    r.slot.builder = s.builder ∧
    r.nextId = n ∧
    r.fc = f ∧
    (r.slot = s ∨ r.slot = s.setStarted true) ∧
    (r.exc = none → r.slot = s.setStarted true ∧ r.counted = true) ∧
    (∀ e, r.exc = some e → (∃ t, e = Exc.beforeStartRaise t) ∨
      (∃ t, e = Exc.startRaise t) ∨ (∃ t, e = Exc.afterStartRaise t)) ∧
    (∀ t, r.exc = some (Exc.beforeStartRaise t) → r.slot = s) ∧
    (∀ t, r.exc = some (Exc.afterStartRaise t) →
      r.slot.started = true ∧ r.evs.getLast? = some (Ev.afterStartCall i)) ∧
    (r.exc = none → startsOf r.evs = [i]) ∧
    (startsOf r.evs = [] ∨ startsOf r.evs = [i]) ∧
    factsOf r.evs = [] ∧
    (∀ e ∈ r.evs, evIdx e = i) := by
  unfold startHooks at hr
  cases hBS : s.builder.before_start with
  | none =>
      simp only [hBS] at hr
      obtain ⟨h1, h2, h3, h4, h5, h6, h7, h8, h9, h10, h11⟩ :=
        startThread_spec env i s c n f [] r hr
      refine ⟨h1, h2, h3, h4, h5, h6, ?_, ?_, h8, ?_, ?_, ?_, ?_⟩
      · intro e he
        rcases h7 e he with h | h
        · exact Or.inr (Or.inl h)
        · exact Or.inr (Or.inr h)
      · intro t ht
        rcases h7 _ ht with ⟨t2, ht2⟩ | ⟨t2, ht2⟩ <;> cases ht2
      · intro _
        simpa [startsOf] using h9
      · right; simpa [startsOf] using h9
      · simpa [factsOf] using h10
      · intro e he
        rcases h11 e he with h | h
        · cases h
        · exact h
  | some g =>
      simp only [hBS] at hr
      cases hG : g c <;> simp only [hG, Bool.false_eq_true, ite_true, ite_false] at hr
      · obtain ⟨h1, h2, h3, h4, h5, h6, h7, h8, h9, h10, h11⟩ :=
          startThread_spec env i s (c + 1) n f [Ev.beforeStartCall i] r hr
        refine ⟨h1, h2, h3, h4, h5, h6, ?_, ?_, h8, ?_, ?_, ?_, ?_⟩
        · intro e he
          rcases h7 e he with h | h
          · exact Or.inr (Or.inl h)
          · exact Or.inr (Or.inr h)
        · intro t ht
          rcases h7 _ ht with ⟨t2, ht2⟩ | ⟨t2, ht2⟩ <;> cases ht2
        · intro _
          simpa [startsOf] using h9
        · right; simpa [startsOf] using h9
        · simpa [factsOf] using h10
        · intro e he
          rcases h11 e he with h | h
          · simp only [List.mem_singleton] at h; subst h; rfl
          · exact h
      · subst hr
        refine ⟨rfl, rfl, rfl, rfl, Or.inl rfl, ?_, ?_, ?_, ?_, ?_, ?_, ?_, ?_⟩
        · intro h; cases h
        · intro e he
          left
          cases he
          exact ⟨c, rfl⟩
        · intro t _; rfl
        · intro t ht; cases ht
        · intro h; cases h
        · left; rfl
        · rfl
        · intro e he
          simp only [List.mem_singleton] at he; subst he; rfl

theorem startOne_spec (env : Env) (i : Nat) (s : Slot) (c n f : Nat)
    (r : SRes) (hr : r = startOne env i s c n f) :
    (running s = true → r = ⟨s, c, n, f, false, none, []⟩) ∧
    r.slot.builder = s.builder ∧
    (∀ t, s.thread = some t → r.slot.thread = some t ∧ r.nextId = n ∧
      r.fc = f ∧ factsOf r.evs = []) ∧
    n ≤ r.nextId ∧
    (∀ t, r.slot.thread = some t → s.thread = some t ∨ (t = n ∧ n < r.nextId)) ∧
    (r.exc = none → running r.slot = true) ∧
    (r.exc = none → (r.counted = true ↔ running s = false)) ∧
    (r.exc = none → startsOf r.evs = if running s then [] else [i]) ∧
    (r.exc = none → factsOf r.evs =
      (match s.thread with | none => [i] | some _ => [])) ∧
    (startsOf r.evs = [] ∨ startsOf r.evs = [i]) ∧
    (factsOf r.evs = [] ∨ factsOf r.evs = [i]) ∧
    (∀ e ∈ r.evs, evIdx e = i) ∧
    (∀ t, r.exc = some (Exc.factoryRaise t) → r.slot = s ∧ s.thread = none) ∧
    (∀ t, r.exc = some (Exc.beforeStartRaise t) →
      r.slot.started = s.started ∧ r.slot.thread.isSome = true) ∧
    (∀ t, r.exc = some (Exc.afterStartRaise t) →
      running r.slot = true ∧ r.evs.getLast? = some (Ev.afterStartCall i)) ∧
    (SlotInv s → SlotInv r.slot) := by
  unfold startOne at hr
  cases hRun : running s <;>
    simp only [hRun, Bool.false_eq_true, ite_true, ite_false] at hr
  · cases hTh : s.thread with
    | some t0 =>
        simp only [hTh] at hr
        obtain ⟨h1, h2, h3, h4, h5, h6, h7, h8, h9, h10, h11, h12, h13⟩ :=
          startHooks_spec env i s c n f r hr
        refine ⟨?_, h2, ?_, Nat.le_of_eq h3.symm, ?_, ?_, ?_, ?_, ?_, h11, ?_, h13, ?_, ?_, ?_, ?_⟩
        · intro hc; exact Bool.noConfusion hc
        · intro t ht
          have hEq : t0 = t := Option.some.inj ht
          subst hEq
          exact ⟨h1.trans hTh, h3, h4, h12⟩
        · intro t ht
          exact Or.inl (hTh.symm.trans (h1.symm.trans ht))
        · intro hn
          have := (h6 hn).1
          simp [running, this, Slot.setStarted, hTh]
        · intro hn
          simp [(h6 hn).2, hRun]
        · intro hn
          simp [hRun, h10 hn]
        · intro hn
          simp only [hTh]
          exact h12
        · left; exact h12
        · intro t ht
          rcases h7 _ ht with ⟨t2, ht2⟩ | ⟨t2, ht2⟩ | ⟨t2, ht2⟩ <;> cases ht2
        · intro t ht
          refine ⟨?_, ?_⟩
          · have hs := h8 t ht
            rw [hs]
          · rw [h1, hTh]; rfl
        · intro t ht
          refine ⟨?_, (h9 t ht).2⟩
          simp [running, (h9 t ht).1, h1, hTh]
        · intro _ _
          rw [h1, hTh]; rfl
    | none =>
        simp only [hTh] at hr
        cases hF : s.builder.thread_factory c <;>
          simp only [hF, Bool.false_eq_true, ite_true, ite_false] at hr
        · obtain ⟨h1, h2, h3, h4, h5, h6, h7, h8, h9, h10, h11, h12, h13⟩ :=
            startHooks_spec env i (s.setThread (some n)) (c + 1) (n + 1) (f + 1)
              ((startHooks env i (s.setThread (some n)) (c + 1) (n + 1) (f + 1))) rfl
          have hrEq : r = (startHooks env i (s.setThread (some n))
              (c + 1) (n + 1) (f + 1)).withEvs [Ev.factoryCall i] := hr
          set r2 := startHooks env i (s.setThread (some n)) (c + 1) (n + 1) (f + 1) with hr2
          have hslot : r.slot = r2.slot := by rw [hrEq]; rfl
          have hnext : r.nextId = r2.nextId := by rw [hrEq]; rfl
          have hfc : r.fc = r2.fc := by rw [hrEq]; rfl
          have hcnt : r.counted = r2.counted := by rw [hrEq]; rfl
          have hexc : r.exc = r2.exc := by rw [hrEq]; rfl
          have hevs : r.evs = Ev.factoryCall i :: r2.evs := by rw [hrEq]; rfl
          have hth : r2.slot.thread = some n := h1
          have hstarts : startsOf r.evs = startsOf r2.evs := by
            rw [hevs]; rfl
          have hfacts : factsOf r.evs = i :: factsOf r2.evs := by
            rw [hevs]; rfl
          refine ⟨?_, ?_, ?_, ?_, ?_, ?_, ?_, ?_, ?_, ?_, ?_, ?_, ?_, ?_, ?_, ?_⟩
          · intro hc; exact Bool.noConfusion hc
          · rw [hslot, h2]; rfl
          · intro t ht; cases ht
          · rw [hnext, h3]; omega
          · intro t ht
            rw [hslot, hth] at ht
            right
            cases ht
            constructor
            · rfl
            · rw [hnext, h3]; omega
          · intro hn
            rw [hexc] at hn
            have := (h6 hn).1
            rw [hslot, this]
            simp [running, Slot.setStarted, Slot.setThread]
          · intro hn
            rw [hexc] at hn
            rw [hcnt, (h6 hn).2]
            simp [hRun]
          · intro hn
            rw [hexc] at hn
            rw [hstarts, h10 hn]
            simp [hRun]
          · intro hn
            rw [hfacts, h12]
          · rw [hstarts]; exact h11
          · rw [hfacts, h12]; right; rfl
          · intro e he
            rw [hevs] at he
            rcases List.mem_cons.mp he with h | h
            · subst h; rfl
            · exact h13 e h
          · intro t ht
            rw [hexc] at ht
            rcases h7 _ ht with ⟨t2, ht2⟩ | ⟨t2, ht2⟩ | ⟨t2, ht2⟩ <;> cases ht2
          · intro t ht
            rw [hexc] at ht
            have hs := h8 t ht
            rw [hslot, hs]
            constructor
            · rfl
            · simp [Slot.setThread]
          · intro t ht
            rw [hexc] at ht
            have hs := h9 t ht
            refine ⟨?_, ?_⟩
            · rw [hslot]
              simp [running, hs.1, hth]
            · rw [hevs]
              have hne : r2.evs ≠ [] := by
                intro hnil
                have h0 := hs.2
                rw [hnil] at h0
                cases h0
              calc (Ev.factoryCall i :: r2.evs).getLast?
                  = ([Ev.factoryCall i] ++ r2.evs).getLast? := rfl
                _ = r2.evs.getLast? := List.getLast?_append_of_ne_nil _ hne
                _ = some (Ev.afterStartCall i) := hs.2
          · intro _
            intro hst
            rw [hslot, hth]
            rfl
        · subst hr
          refine ⟨?_, rfl, ?_, Nat.le_refl n, ?_, ?_, ?_, ?_, ?_, ?_, ?_, ?_, ?_, ?_, ?_, ?_⟩
          · intro hc; exact Bool.noConfusion hc
          · intro t ht; cases ht
          · intro t ht
            have h9 : (none : Option Nat) = some t := hTh.symm.trans (ht : s.thread = some t)
            cases h9
          · intro hn; cases hn
          · intro hn; cases hn
          · intro hn; cases hn
          · intro hn; cases hn
          · left; rfl
          · right; rfl
          · intro e he
            simp only [List.mem_singleton] at he; subst he; rfl
          · intro t _
            exact ⟨rfl, rfl⟩
          · intro t ht; cases ht
          · intro t ht; cases ht
          · intro h; exact h
  · subst hr
    refine ⟨?_, rfl, ?_, Nat.le_refl n, ?_, ?_, ?_, ?_, ?_, ?_, ?_, ?_, ?_, ?_, ?_, ?_⟩
    · intro _; rfl
    · intro t ht
      exact ⟨ht, rfl, rfl, rfl⟩
    · intro t ht
      exact Or.inl ht
    · intro _; exact hRun
    · intro _
      simp [hRun]
    · intro _
      simp [hRun, startsOf]
    · intro _
      have : s.thread.isSome = true := by
        simp only [running, Bool.and_eq_true] at hRun
        exact hRun.1
      cases hTh : s.thread with
      | none => simp [hTh] at this
      | some t0 => rfl
    · left; rfl
    · left; rfl
    · intro e he; cases he
    · intro t ht; cases ht
    · intro t ht; cases ht
    · intro t ht; cases ht
    · intro h; exact h

theorem joinThread_spec (env : Env) (i : Nat) (s : Slot) (c : Nat)
    (evs : List Ev) (r : PRes) (hr : r = joinThread env i s c evs) :
    r.slot.builder = s.builder ∧
    (r.slot = s ∨ r.slot = ⟨s.builder, none, false⟩) ∧
    (r.exc = none → r.slot = (⟨s.builder, none, false⟩ : Slot) ∧ r.counted = true) ∧
    (∀ e, r.exc = some e →
      (∃ t, e = Exc.joinRaise t) ∨ (∃ t, e = Exc.afterJoinRaise t)) ∧
    (∀ t, r.exc = some (Exc.afterJoinRaise t) →
      r.slot = (⟨s.builder, none, false⟩ : Slot) ∧
      r.evs.getLast? = some (Ev.afterJoinCall i)) ∧
    joinsOf r.evs = joinsOf evs ++ [i] ∧
    (∀ e ∈ r.evs, e ∈ evs ∨ evIdx e = i) := by
  have hlast2 : ∀ (x y : Ev), (evs ++ [x, y]).getLast? = some y := by
    intro x y
    rw [List.getLast?_append_of_ne_nil evs (by simp)]
    rfl
  unfold joinThread at hr
  cases hJR : env.joinRaises c <;> simp only [hJR, Bool.false_eq_true,
      ite_true, ite_false] at hr
  · cases hAJ : s.builder.after_join with
    | none =>
        simp only [hAJ] at hr
        subst hr
        refine ⟨rfl, Or.inr rfl, fun _ => ⟨rfl, rfl⟩, ?_, ?_, ?_, ?_⟩
        · intro e he; cases he
        · intro t ht; cases ht
        · simp [joinsOf, List.filterMap_append]
        · intro e he
          rcases List.mem_append.mp he with h | h
          · exact Or.inl h
          · right; simp only [List.mem_singleton] at h; subst h; rfl
    | some g =>
        simp only [hAJ] at hr
        cases hG : g (c + 1) <;> simp only [hG, Bool.false_eq_true,
            ite_true, ite_false] at hr <;> subst hr
        · refine ⟨rfl, Or.inr rfl, fun _ => ⟨rfl, rfl⟩, ?_, ?_, ?_, ?_⟩
          · intro e he; cases he
          · intro t ht; cases ht
          · simp [joinsOf, List.filterMap_append]
          · intro e he
            rcases List.mem_append.mp he with h | h
            · exact Or.inl h
            · right
              rcases List.mem_cons.mp h with h1 | h1
              · subst h1; rfl
              · simp only [List.mem_singleton] at h1; subst h1; rfl
        · refine ⟨rfl, Or.inr rfl, ?_, ?_, ?_, ?_, ?_⟩
          · intro hn; cases hn
          · intro e he
            right
            cases he
            exact ⟨c + 1, rfl⟩
          · intro t _
            exact ⟨rfl, hlast2 _ _⟩
          · simp [joinsOf, List.filterMap_append]
          · intro e he
            rcases List.mem_append.mp he with h | h
            · exact Or.inl h
            · right
              rcases List.mem_cons.mp h with h1 | h1
              · subst h1; rfl
              · simp only [List.mem_singleton] at h1; subst h1; rfl
  · subst hr
    refine ⟨rfl, Or.inl rfl, ?_, ?_, ?_, ?_, ?_⟩
    · intro hn; cases hn
    · intro e he
      left
      cases he
      exact ⟨c, rfl⟩
    · intro t ht; cases ht
    · simp [joinsOf, List.filterMap_append]
    · intro e he
      rcases List.mem_append.mp he with h | h
      · exact Or.inl h
      · right; simp only [List.mem_singleton] at h; subst h; rfl

theorem stopOne_spec (env : Env) (i : Nat) (s : Slot) (c : Nat)
    (r : PRes) (hr : r = stopOne env i s c) :
    (running s = false → r = ⟨s, c, false, none, []⟩) ∧
    r.slot.builder = s.builder ∧
    (r.slot = s ∨ r.slot = ⟨s.builder, none, false⟩) ∧
    (r.exc = none →
      r.slot = (if running s then (⟨s.builder, none, false⟩ : Slot) else s)) ∧
    (r.exc = none → r.counted = running s) ∧
    (r.exc = none → joinsOf r.evs = (if running s then [i] else [])) ∧
    (∀ e ∈ r.evs, evIdx e = i) ∧
    (∀ t, r.exc = some (Exc.afterJoinRaise t) →
      r.slot.thread = none ∧ r.slot.started = false ∧
      r.evs.getLast? = some (Ev.afterJoinCall i)) ∧
    (SlotInv s → SlotInv r.slot) ∧
    (∀ t, r.slot.thread = some t → s.thread = some t) := by
  unfold stopOne at hr
  cases hRun : running s <;>
    simp only [hRun, Bool.false_eq_true, ite_true, ite_false] at hr
  · subst hr
    refine ⟨fun _ => rfl, rfl, Or.inl rfl, ?_, ?_, ?_, ?_, ?_, ?_, ?_⟩
    · intro _; rfl
    · intro _; rfl
    · intro _; simp [joinsOf]
    · intro e he; cases he
    · intro t ht; cases ht
    · intro h; exact h
    · intro t ht; exact ht
  · have hfin : ∀ (r2 : PRes), r = r2 →
        r2.slot.builder = s.builder →
        (r2.slot = s ∨ r2.slot = ⟨s.builder, none, false⟩) →
        (r2.exc = none → r2.slot = (⟨s.builder, none, false⟩ : Slot) ∧
          r2.counted = true) →
        (∀ t, r2.exc = some (Exc.afterJoinRaise t) →
          r2.slot = (⟨s.builder, none, false⟩ : Slot) ∧
          r2.evs.getLast? = some (Ev.afterJoinCall i)) →
        joinsOf r2.evs = [i] →
        (∀ e ∈ r2.evs, evIdx e = i) →
        (running s = false → r = ⟨s, c, false, none, []⟩) ∧
        r.slot.builder = s.builder ∧
        (r.slot = s ∨ r.slot = ⟨s.builder, none, false⟩) ∧
        (r.exc = none →
          r.slot = (if running s then (⟨s.builder, none, false⟩ : Slot) else s)) ∧
        (r.exc = none → r.counted = running s) ∧
        (r.exc = none → joinsOf r.evs = (if running s then [i] else [])) ∧
        (∀ e ∈ r.evs, evIdx e = i) ∧
        (∀ t, r.exc = some (Exc.afterJoinRaise t) →
          r.slot.thread = none ∧ r.slot.started = false ∧
          r.evs.getLast? = some (Ev.afterJoinCall i)) ∧
        (SlotInv s → SlotInv r.slot) ∧
        (∀ t, r.slot.thread = some t → s.thread = some t) := by
      intro r2 hEq hb hcases hok hajr hjoins hidx
      subst hEq
      refine ⟨?_, hb, hcases, ?_, ?_, ?_, hidx, ?_, ?_, ?_⟩
      · intro hc; rw [hRun] at hc; exact Bool.noConfusion hc
      · intro hn
        rw [(hok hn).1]
        simp [hRun]
      · intro hn
        rw [(hok hn).2, hRun]
      · intro hn
        rw [hjoins]
        simp [hRun]
      · intro t ht
        have h2 := hajr t ht
        rw [h2.1]
        exact ⟨rfl, rfl, h2.2⟩
      · intro _
        rcases hcases with h | h
        · rw [h]
          intro hstart
          simp only [running, Bool.and_eq_true] at hRun
          exact hRun.1
        · rw [h]
          intro hstart
          cases hstart
      · intro t ht
        rcases hcases with h | h
        · rw [h] at ht; exact ht
        · rw [h] at ht; cases ht
    cases hBJ : s.builder.before_join with
    | none =>
        simp only [hBJ] at hr
        obtain ⟨h1, h2, h3, h4, h5, h6, h7⟩ :=
          joinThread_spec env i s c [] r hr
        have hidx : ∀ e ∈ r.evs, evIdx e = i := by
          intro e he
          rcases h7 e he with h | h
          · cases h
          · exact h
        have H := hfin r rfl h1 h2 h3 h5 (by simpa [joinsOf] using h6) hidx
        simp only [hRun] at H
        exact H
    | some g =>
        simp only [hBJ] at hr
        cases hG : g c <;> simp only [hG, Bool.false_eq_true,
            ite_true, ite_false] at hr
        · obtain ⟨h1, h2, h3, h4, h5, h6, h7⟩ :=
            joinThread_spec env i s (c + 1) [Ev.beforeJoinCall i] r hr
          have hidx : ∀ e ∈ r.evs, evIdx e = i := by
            intro e he
            rcases h7 e he with h | h
            · simp only [List.mem_singleton] at h; subst h; rfl
            · exact h
          have H := hfin r rfl h1 h2 h3 h5 (by simpa [joinsOf] using h6) hidx
          simp only [hRun] at H
          exact H
        · subst hr
          refine ⟨?_, rfl, Or.inl rfl, ?_, ?_, ?_, ?_, ?_, ?_, ?_⟩
          · intro hc; exact Bool.noConfusion hc
          · intro hn; cases hn
          · intro hn; cases hn
          · intro hn; cases hn
          · intro e he
            simp only [List.mem_singleton] at he; subst he; rfl
          · intro t ht; cases ht
          · intro h; exact h
          · intro t ht; exact ht

theorem forall2_mem_right {α β : Type} {R : α → β → Prop} :
    ∀ {l1 : List α} {l2 : List β}, List.Forall₂ R l1 l2 →
      ∀ y ∈ l2, ∃ x ∈ l1, R x y := by
  intro l1 l2 h
  induction h with
  | nil => intro y hy; cases hy
  | cons hR _ ih =>
      intro y hy
      rcases List.mem_cons.mp hy with h1 | h1
      · subst h1
        exact ⟨_, List.mem_cons_self _ _, hR⟩
      · rcases ih y h1 with ⟨x, hx, hxy⟩
        exact ⟨x, List.mem_cons_of_mem _ hx, hxy⟩

theorem forall2_getD {α β : Type} {R : α → β → Prop} (d : α) (d2 : β) :
    ∀ {l1 : List α} {l2 : List β}, List.Forall₂ R l1 l2 →
      ∀ k, k < l1.length → R (l1.getD k d) (l2.getD k d2) := by
  intro l1 l2 h
  induction h with
  | nil => intro k hk; cases hk
  | cons hR h2 ih =>
      intro k hk
      cases k with
      | zero => exact hR
      | succ k2 =>
          simp only [List.getD_cons_succ]
          exact ih k2 (by simpa using hk)

theorem startLoop_length (env : Env) :
    ∀ (L : List Slot) (i c n f : Nat),
      (startLoop env i c n f L).slots.length = L.length := by
  intro L
  induction L with
  | nil => intro i c n f; rfl
  | cons s rest ih =>
      intro i c n f
      show (match (startOne env i s c n f).exc with
        | some e => _
        | none => _ : LRes).slots.length = _
      cases hE : (startOne env i s c n f).exc with
      | some e => simp [hE]
      | none => simp [hE, ih]

theorem startLoop_forall2 (env : Env) :
    ∀ (L : List Slot) (i c n f : Nat),
      List.Forall₂ (fun s s2 =>
        s2.builder = s.builder ∧
        (running s = true → s2 = s) ∧
        (∀ t, s.thread = some t → s2.thread = some t) ∧
        (SlotInv s → SlotInv s2)) L (startLoop env i c n f L).slots := by
  intro L
  induction L with
  | nil => intro i c n f; exact List.Forall₂.nil
  | cons s rest ih =>
      intro i c n f
      obtain ⟨o1, o2, o3, o4, o5, o6, o7, o8, o9, o10, o11, o12, o13,
        o14, o15, o16⟩ := startOne_spec env i s c n f _ rfl
      have hhead : (startOne env i s c n f).slot.builder = s.builder ∧
          (running s = true → (startOne env i s c n f).slot = s) ∧
          (∀ t, s.thread = some t → (startOne env i s c n f).slot.thread = some t) ∧
          (SlotInv s → SlotInv (startOne env i s c n f).slot) := by
        refine ⟨o2, ?_, fun t ht => (o3 t ht).1, o16⟩
        intro hrun
        rw [o1 hrun]
      show List.Forall₂ _ _ (match (startOne env i s c n f).exc with
        | some e => _
        | none => _ : LRes).slots
      cases hE : (startOne env i s c n f).exc with
      | some e =>
          simp only
          exact List.Forall₂.cons hhead ((List.forall₂_same).mpr
            (fun x _ => ⟨rfl, fun _ => rfl, fun t ht => ht, fun h => h⟩))
      | none =>
          simp only
          exact List.Forall₂.cons hhead (ih _ _ _ _)

theorem startLoop_nextId_mono (env : Env) :
    ∀ (L : List Slot) (i c n f : Nat), n ≤ (startLoop env i c n f L).nextId := by
  intro L
  induction L with
  | nil => intro i c n f; exact Nat.le_refl n
  | cons s rest ih =>
      intro i c n f
      obtain ⟨o1, o2, o3, o4, o5, o6, o7, o8, o9, o10, o11, o12, o13,
        o14, o15, o16⟩ := startOne_spec env i s c n f _ rfl
      show n ≤ (match (startOne env i s c n f).exc with
        | some e => _
        | none => _ : LRes).nextId
      cases hE : (startOne env i s c n f).exc with
      | some e => simpa using o4
      | none =>
          simp only
          exact Nat.le_trans o4 (ih _ _ _ _)

theorem startLoop_idsBelow (env : Env) :
    ∀ (L : List Slot) (i c n f : Nat),
      (∀ s ∈ L, ∀ t, s.thread = some t → t < n) →
      ∀ s2 ∈ (startLoop env i c n f L).slots, ∀ t, s2.thread = some t →
        t < (startLoop env i c n f L).nextId := by
  intro L
  induction L with
  | nil => intro i c n f _ s2 hs2; cases hs2
  | cons s rest ih =>
      intro i c n f hin s2 hs2 t ht
      obtain ⟨o1, o2, o3, o4, o5, o6, o7, o8, o9, o10, o11, o12, o13,
        o14, o15, o16⟩ := startOne_spec env i s c n f _ rfl
      have hheadlt : ∀ t2, (startOne env i s c n f).slot.thread = some t2 →
          t2 < (startOne env i s c n f).nextId := by
        intro t2 ht2
        rcases o5 t2 ht2 with h | h
        · exact Nat.lt_of_lt_of_le (hin s (List.mem_cons_self _ _) t2 h) o4
        · rw [h.1]; exact h.2
      revert hs2 ht
      show s2 ∈ (match (startOne env i s c n f).exc with
        | some e => _
        | none => _ : LRes).slots → s2.thread = some t →
        t < (match (startOne env i s c n f).exc with
        | some e => _
        | none => _ : LRes).nextId
      cases hE : (startOne env i s c n f).exc with
      | some e =>
          simp only
          intro hs2 ht
          rcases List.mem_cons.mp hs2 with h | h
          · subst h; exact hheadlt t ht
          · exact Nat.lt_of_lt_of_le
              (Nat.lt_of_lt_of_le (hin s2 (List.mem_cons_of_mem _ h) t ht) o4)
              (Nat.le_refl _)
      | none =>
          simp only
          intro hs2 ht
          rcases List.mem_cons.mp hs2 with h | h
          · subst h
            exact Nat.lt_of_lt_of_le (hheadlt t ht) (startLoop_nextId_mono env _ _ _ _ _)
          · refine ih _ _ _ _ ?_ s2 h t ht
            intro s3 hs3 t3 ht3
            exact Nat.lt_of_lt_of_le (hin s3 (List.mem_cons_of_mem _ hs3) t3 ht3) o4

theorem startLoop_evIdx_ge (env : Env) :
    ∀ (L : List Slot) (i c n f : Nat),
      ∀ e ∈ (startLoop env i c n f L).evs, i ≤ evIdx e := by
  intro L
  induction L with
  | nil => intro i c n f e he; cases he
  | cons s rest ih =>
      intro i c n f e
      obtain ⟨o1, o2, o3, o4, o5, o6, o7, o8, o9, o10, o11, o12, o13,
        o14, o15, o16⟩ := startOne_spec env i s c n f _ rfl
      show e ∈ (match (startOne env i s c n f).exc with
        | some e2 => _
        | none => _ : LRes).evs → i ≤ evIdx e
      cases hE : (startOne env i s c n f).exc with
      | some e2 =>
          simp only
          intro he
          exact Nat.le_of_eq (o12 e he).symm
      | none =>
          simp only
          intro he
          rcases List.mem_append.mp he with h | h
          · exact Nat.le_of_eq (o12 e h).symm
          · exact Nat.le_trans (Nat.le_succ i) (ih _ _ _ _ e h)

theorem startsOf_append (a b : List Ev) :
    startsOf (a ++ b) = startsOf a ++ startsOf b := by
  simp [startsOf, List.filterMap_append]

theorem factsOf_append (a b : List Ev) :
    factsOf (a ++ b) = factsOf a ++ factsOf b := by
  simp [factsOf, List.filterMap_append]

theorem joinsOf_append (a b : List Ev) :
    joinsOf (a ++ b) = joinsOf a ++ joinsOf b := by
  simp [joinsOf, List.filterMap_append]

theorem startLoop_cons_err_slots (env : Env) (i c n f : Nat) (s : Slot)
    (rest : List Slot) (e : Exc) (hE : (startOne env i s c n f).exc = some e) :
    (startLoop env i c n f (s :: rest)).slots =
      (startOne env i s c n f).slot :: rest := by
  simp [startLoop, hE]

theorem startLoop_cons_err_evs (env : Env) (i c n f : Nat) (s : Slot)
    (rest : List Slot) (e : Exc) (hE : (startOne env i s c n f).exc = some e) :
    (startLoop env i c n f (s :: rest)).evs = (startOne env i s c n f).evs := by
  simp [startLoop, hE]

theorem startLoop_cons_err_exc (env : Env) (i c n f : Nat) (s : Slot)
    (rest : List Slot) (e : Exc) (hE : (startOne env i s c n f).exc = some e) :
    (startLoop env i c n f (s :: rest)).exc = some e := by
  simp [startLoop, hE]

theorem startLoop_cons_ok_slots (env : Env) (i c n f : Nat) (s : Slot)
    (rest : List Slot) (hE : (startOne env i s c n f).exc = none) :
    (startLoop env i c n f (s :: rest)).slots =
      (startOne env i s c n f).slot ::
        (startLoop env (i + 1) (startOne env i s c n f).clock
          (startOne env i s c n f).nextId (startOne env i s c n f).fc rest).slots := by
  simp [startLoop, hE]

theorem startLoop_cons_ok_evs (env : Env) (i c n f : Nat) (s : Slot)
    (rest : List Slot) (hE : (startOne env i s c n f).exc = none) :
    (startLoop env i c n f (s :: rest)).evs =
      (startOne env i s c n f).evs ++
        (startLoop env (i + 1) (startOne env i s c n f).clock
          (startOne env i s c n f).nextId (startOne env i s c n f).fc rest).evs := by
  simp [startLoop, hE]

theorem startLoop_cons_ok_exc (env : Env) (i c n f : Nat) (s : Slot)
    (rest : List Slot) (hE : (startOne env i s c n f).exc = none) :
    (startLoop env i c n f (s :: rest)).exc =
      (startLoop env (i + 1) (startOne env i s c n f).clock
        (startOne env i s c n f).nextId (startOne env i s c n f).fc rest).exc := by
  simp [startLoop, hE]

theorem startLoop_cons_ok_count (env : Env) (i c n f : Nat) (s : Slot)
    (rest : List Slot) (hE : (startOne env i s c n f).exc = none) :
    (startLoop env i c n f (s :: rest)).count =
      (if (startOne env i s c n f).counted then 1 else 0) +
        (startLoop env (i + 1) (startOne env i s c n f).clock
          (startOne env i s c n f).nextId (startOne env i s c n f).fc rest).count := by
  simp [startLoop, hE]

theorem startLoop_cons_ok_nextId (env : Env) (i c n f : Nat) (s : Slot)
    (rest : List Slot) (hE : (startOne env i s c n f).exc = none) :
    (startLoop env i c n f (s :: rest)).nextId =
      (startLoop env (i + 1) (startOne env i s c n f).clock
        (startOne env i s c n f).nextId (startOne env i s c n f).fc rest).nextId := by
  simp [startLoop, hE]

theorem startLoop_success (env : Env) :
    ∀ (L : List Slot) (i c n f : Nat),
      (startLoop env i c n f L).exc = none →
      List.Forall₂ (fun s s2 => running s2 = true ∧
        (s.thread = none → ∃ tid, s2.thread = some tid ∧ n ≤ tid))
        L (startLoop env i c n f L).slots ∧
      startsOf (startLoop env i c n f L).evs = pendingIdx i L ∧
      factsOf (startLoop env i c n f L).evs = absentIdx i L ∧
      (startLoop env i c n f L).count = (pendingIdx i L).length := by
  intro L
  induction L with
  | nil =>
      intro i c n f _
      exact ⟨List.Forall₂.nil, rfl, rfl, rfl⟩
  | cons s rest ih =>
      intro i c n f hok
      obtain ⟨o1, o2, o3, o4, o5, o6, o7, o8, o9, o10, o11, o12, o13,
        o14, o15, o16⟩ := startOne_spec env i s c n f _ rfl
      cases hE : (startOne env i s c n f).exc with
      | some e =>
          rw [startLoop_cons_err_exc env i c n f s rest e hE] at hok
          cases hok
      | none =>
          rw [startLoop_cons_ok_exc env i c n f s rest hE] at hok
          obtain ⟨ih1, ih2, ih3, ih4⟩ := ih (i + 1) (startOne env i s c n f).clock
            (startOne env i s c n f).nextId (startOne env i s c n f).fc hok
          have hhead : running (startOne env i s c n f).slot = true ∧
              (s.thread = none → ∃ tid,
                (startOne env i s c n f).slot.thread = some tid ∧ n ≤ tid) := by
            refine ⟨o6 hE, ?_⟩
            intro hTh
            have hrun := o6 hE
            simp only [running, Bool.and_eq_true] at hrun
            rcases Option.isSome_iff_exists.mp hrun.1 with ⟨tid, htid⟩
            refine ⟨tid, htid, ?_⟩
            rcases o5 tid htid with h | h
            · rw [hTh] at h; cases h
            · exact Nat.le_of_eq h.1.symm
          have htail : List.Forall₂ (fun s3 s2 => running s2 = true ∧
              (s3.thread = none → ∃ tid, s2.thread = some tid ∧ n ≤ tid))
              rest (startLoop env (i + 1) (startOne env i s c n f).clock
                (startOne env i s c n f).nextId (startOne env i s c n f).fc rest).slots := by
            refine List.Forall₂.imp ?_ ih1
            intro s3 s2 h
            refine ⟨h.1, ?_⟩
            intro hTh
            rcases h.2 hTh with ⟨tid, htid, hle⟩
            exact ⟨tid, htid, Nat.le_trans o4 hle⟩
          refine ⟨?_, ?_, ?_, ?_⟩
          · rw [startLoop_cons_ok_slots env i c n f s rest hE]
            exact List.Forall₂.cons hhead htail
          · rw [startLoop_cons_ok_evs env i c n f s rest hE,
              startsOf_append, o8 hE, ih2]
            cases hRun : running s <;> simp [pendingIdx, hRun]
          · rw [startLoop_cons_ok_evs env i c n f s rest hE,
              factsOf_append, o9 hE, ih3]
            cases hTh : s.thread <;> simp [absentIdx, hTh]
          · rw [startLoop_cons_ok_count env i c n f s rest hE, ih4]
            have hcnt := o7 hE
            cases hRun : running s
            · have hc : (startOne env i s c n f).counted = true := by
                rw [hcnt, hRun]
              rw [hc]
              simp [pendingIdx, hRun]
              omega
            · have hc : (startOne env i s c n f).counted = false := by
                cases hC : (startOne env i s c n f).counted
                · rfl
                · rw [hC] at hcnt
                  rw [hRun] at hcnt
                  exact absurd (hcnt.mp rfl) (by simp)
              rw [hc]
              simp [pendingIdx, hRun]

theorem startLoop_error (env : Env) :
    ∀ (L : List Slot) (i c n f : Nat) (e : Exc),
      (startLoop env i c n f L).exc = some e →
      ((∃ t, e = Exc.factoryRaise t) ∨ (∃ t, e = Exc.beforeStartRaise t)) →
      ∃ k, k < L.length ∧
        (∀ s2 ∈ (startLoop env i c n f L).slots.take k, running s2 = true) ∧
        (startLoop env i c n f L).slots.drop (k + 1) = L.drop (k + 1) ∧
        (∀ ev ∈ (startLoop env i c n f L).evs, evIdx ev ≤ i + k) ∧
        ((startLoop env i c n f L).slots.getD k defaultSlot).started =
          (L.getD k defaultSlot).started := by
  intro L
  induction L with
  | nil => intro i c n f e he; cases he
  | cons s rest ih =>
      intro i c n f e he hkind
      obtain ⟨o1, o2, o3, o4, o5, o6, o7, o8, o9, o10, o11, o12, o13,
        o14, o15, o16⟩ := startOne_spec env i s c n f _ rfl
      cases hE : (startOne env i s c n f).exc with
      | some e2 =>
          rw [startLoop_cons_err_exc env i c n f s rest e2 hE] at he
          have he2 : e2 = e := by cases he; rfl
          subst he2
          refine ⟨0, by simp, ?_, ?_, ?_, ?_⟩
          · intro s2 hs2
            rw [startLoop_cons_err_slots env i c n f s rest e2 hE] at hs2
            cases hs2
          · rw [startLoop_cons_err_slots env i c n f s rest e2 hE]
            rfl
          · intro ev hev
            rw [startLoop_cons_err_evs env i c n f s rest e2 hE] at hev
            exact Nat.le_of_eq (o12 ev hev)
          · rw [startLoop_cons_err_slots env i c n f s rest e2 hE]
            rcases hkind with ⟨t, ht⟩ | ⟨t, ht⟩
            · subst ht
              simp only [List.getD_cons_zero]
              rw [(o13 t hE).1]
            · subst ht
              simp only [List.getD_cons_zero]
              exact (o14 t hE).1
      | none =>
          rw [startLoop_cons_ok_exc env i c n f s rest hE] at he
          obtain ⟨k, hk1, hk2, hk3, hk4, hk5⟩ := ih (i + 1)
            (startOne env i s c n f).clock (startOne env i s c n f).nextId
            (startOne env i s c n f).fc e he hkind
          refine ⟨k + 1, by simpa using hk1, ?_, ?_, ?_, ?_⟩
          · intro s2 hs2
            rw [startLoop_cons_ok_slots env i c n f s rest hE] at hs2
            rcases List.mem_cons.mp (by simpa [List.take] using hs2) with h | h
            · subst h; exact o6 hE
            · exact hk2 s2 h
          · rw [startLoop_cons_ok_slots env i c n f s rest hE]
            simpa [List.drop] using hk3
          · intro ev hev
            rw [startLoop_cons_ok_evs env i c n f s rest hE] at hev
            rcases List.mem_append.mp hev with h | h
            · rw [o12 ev h]; omega
            · have := hk4 ev h; omega
          · rw [startLoop_cons_ok_slots env i c n f s rest hE]
            simpa [List.getD] using hk5

theorem startLoop_afterStart_err (env : Env) :
    ∀ (L : List Slot) (i c n f t : Nat),
      (startLoop env i c n f L).exc = some (Exc.afterStartRaise t) →
      ∃ k, i ≤ k ∧ k < i + L.length ∧
        (startLoop env i c n f L).evs.getLast? = some (Ev.afterStartCall k) ∧
        running ((startLoop env i c n f L).slots.getD (k - i) defaultSlot) = true := by
  intro L
  induction L with
  | nil => intro i c n f t he; cases he
  | cons s rest ih =>
      intro i c n f t he
      obtain ⟨o1, o2, o3, o4, o5, o6, o7, o8, o9, o10, o11, o12, o13,
        o14, o15, o16⟩ := startOne_spec env i s c n f _ rfl
      cases hE : (startOne env i s c n f).exc with
      | some e2 =>
          rw [startLoop_cons_err_exc env i c n f s rest e2 hE] at he
          have he2 : e2 = Exc.afterStartRaise t := by cases he; rfl
          subst he2
          obtain ⟨hrun, hlast⟩ := o15 t hE
          refine ⟨i, Nat.le_refl i, by simp, ?_, ?_⟩
          · rw [startLoop_cons_err_evs env i c n f s rest _ hE]
            exact hlast
          · rw [startLoop_cons_err_slots env i c n f s rest _ hE]
            simpa using hrun
      | none =>
          rw [startLoop_cons_ok_exc env i c n f s rest hE] at he
          obtain ⟨k, hk1, hk2, hk3, hk4⟩ := ih (i + 1)
            (startOne env i s c n f).clock (startOne env i s c n f).nextId
            (startOne env i s c n f).fc t he
          have hne : (startLoop env (i + 1) (startOne env i s c n f).clock
              (startOne env i s c n f).nextId (startOne env i s c n f).fc rest).evs ≠ [] := by
            intro hnil
            rw [hnil] at hk3
            cases hk3
          refine ⟨k, by omega, by simpa using (by omega : k < i + (rest.length + 1)), ?_, ?_⟩
          · rw [startLoop_cons_ok_evs env i c n f s rest hE,
              List.getLast?_append_of_ne_nil _ hne]
            exact hk3
          · have hki : k - i = (k - (i + 1)) + 1 := by omega
            rw [startLoop_cons_ok_slots env i c n f s rest hE, hki]
            simpa [List.getD] using hk4

theorem startLoop_all_running (env : Env) :
    ∀ (L : List Slot) (i c n f : Nat),
      (∀ s ∈ L, running s = true) →
      startLoop env i c n f L = ⟨L, c, n, f, 0, none, []⟩ := by
  intro L
  induction L with
  | nil => intro i c n f _; rfl
  | cons s rest ih =>
      intro i c n f hall
      obtain ⟨o1, _⟩ := startOne_spec env i s c n f _ rfl
      have h1 := o1 (hall s (List.mem_cons_self _ _))
      have h2 := ih (i + 1) c n f (fun s2 hs2 => hall s2 (List.mem_cons_of_mem _ hs2))
      simp [startLoop, h1, h2]

theorem mem_factsOf (j : Nat) (evs : List Ev) :
    j ∈ factsOf evs ↔ Ev.factoryCall j ∈ evs := by
  simp only [factsOf, List.mem_filterMap]
  constructor
  · rintro ⟨e, he, hmatch⟩
    cases e <;> simp_all
  · intro h
    exact ⟨Ev.factoryCall j, h, rfl⟩

theorem mem_startsOf (j : Nat) (evs : List Ev) :
    j ∈ startsOf evs ↔ Ev.threadStart j ∈ evs := by
  simp only [startsOf, List.mem_filterMap]
  constructor
  · rintro ⟨e, he, hmatch⟩
    cases e <;> simp_all
  · intro h
    exact ⟨Ev.threadStart j, h, rfl⟩

theorem mem_joinsOf (j : Nat) (evs : List Ev) :
    j ∈ joinsOf evs ↔ Ev.threadJoin j ∈ evs := by
  simp only [joinsOf, List.mem_filterMap]
  constructor
  · rintro ⟨e, he, hmatch⟩
    cases e <;> simp_all
  · intro h
    exact ⟨Ev.threadJoin j, h, rfl⟩

theorem startLoop_pairwise (env : Env) :
    ∀ (L : List Slot) (i c n f : Nat),
      (factsOf (startLoop env i c n f L).evs).Pairwise (· < ·) ∧
      (startsOf (startLoop env i c n f L).evs).Pairwise (· < ·) := by
  intro L
  induction L with
  | nil => intro i c n f; exact ⟨List.Pairwise.nil, List.Pairwise.nil⟩
  | cons s rest ih =>
      intro i c n f
      obtain ⟨o1, o2, o3, o4, o5, o6, o7, o8, o9, o10, o11, o12, o13,
        o14, o15, o16⟩ := startOne_spec env i s c n f _ rfl
      cases hE : (startOne env i s c n f).exc with
      | some e =>
          rw [startLoop_cons_err_evs env i c n f s rest e hE]
          constructor
          · rcases o11 with h | h <;> rw [h] <;> simp
          · rcases o10 with h | h <;> rw [h] <;> simp
      | none =>
          rw [startLoop_cons_ok_evs env i c n f s rest hE]
          obtain ⟨ihf, ihs⟩ := ih (i + 1) (startOne env i s c n f).clock
            (startOne env i s c n f).nextId (startOne env i s c n f).fc
          have hboundf : ∀ j ∈ factsOf (startLoop env (i + 1)
              (startOne env i s c n f).clock (startOne env i s c n f).nextId
              (startOne env i s c n f).fc rest).evs, i < j := by
            intro j hj
            have hmem := (mem_factsOf j _).mp hj
            have := startLoop_evIdx_ge env rest (i + 1) (startOne env i s c n f).clock
              (startOne env i s c n f).nextId (startOne env i s c n f).fc
              (Ev.factoryCall j) hmem
            simpa [evIdx] using this
          have hbounds : ∀ j ∈ startsOf (startLoop env (i + 1)
              (startOne env i s c n f).clock (startOne env i s c n f).nextId
              (startOne env i s c n f).fc rest).evs, i < j := by
            intro j hj
            have hmem := (mem_startsOf j _).mp hj
            have := startLoop_evIdx_ge env rest (i + 1) (startOne env i s c n f).clock
              (startOne env i s c n f).nextId (startOne env i s c n f).fc
              (Ev.threadStart j) hmem
            simpa [evIdx] using this
          constructor
          · rw [factsOf_append]
            rw [List.pairwise_append]
            refine ⟨?_, ihf, ?_⟩
            · rcases o11 with h | h <;> rw [h] <;> simp
            · intro a ha b hb
              rcases o11 with h | h
              · rw [h] at ha; cases ha
              · rw [h] at ha
                simp only [List.mem_singleton] at ha
                subst ha
                exact hboundf b hb
          · rw [startsOf_append]
            rw [List.pairwise_append]
            refine ⟨?_, ihs, ?_⟩
            · rcases o10 with h | h <;> rw [h] <;> simp
            · intro a ha b hb
              rcases o10 with h | h
              · rw [h] at ha; cases ha
              · rw [h] at ha
                simp only [List.mem_singleton] at ha
                subst ha
                exact hbounds b hb

theorem stopLoop_cons_err_slots (env : Env) (i c : Nat) (s : Slot)
    (rest : List Slot) (e : Exc)
    (hE : (stopLoop env (i + 1) c rest).exc = some e) :
    (stopLoop env i c (s :: rest)).slots =
      s :: (stopLoop env (i + 1) c rest).slots := by
  simp [stopLoop, hE]

theorem stopLoop_cons_err_evs (env : Env) (i c : Nat) (s : Slot)
    (rest : List Slot) (e : Exc)
    (hE : (stopLoop env (i + 1) c rest).exc = some e) :
    (stopLoop env i c (s :: rest)).evs = (stopLoop env (i + 1) c rest).evs := by
  simp [stopLoop, hE]

theorem stopLoop_cons_err_exc (env : Env) (i c : Nat) (s : Slot)
    (rest : List Slot) (e : Exc)
    (hE : (stopLoop env (i + 1) c rest).exc = some e) :
    (stopLoop env i c (s :: rest)).exc = some e := by
  simp [stopLoop, hE]

theorem stopLoop_cons_ok_slots (env : Env) (i c : Nat) (s : Slot)
    (rest : List Slot) (hE : (stopLoop env (i + 1) c rest).exc = none) :
    (stopLoop env i c (s :: rest)).slots =
      (stopOne env i s (stopLoop env (i + 1) c rest).clock).slot ::
        (stopLoop env (i + 1) c rest).slots := by
  simp [stopLoop, hE]

theorem stopLoop_cons_ok_evs (env : Env) (i c : Nat) (s : Slot)
    (rest : List Slot) (hE : (stopLoop env (i + 1) c rest).exc = none) :
    (stopLoop env i c (s :: rest)).evs =
      (stopLoop env (i + 1) c rest).evs ++
        (stopOne env i s (stopLoop env (i + 1) c rest).clock).evs := by
  simp [stopLoop, hE]

theorem stopLoop_cons_ok_exc (env : Env) (i c : Nat) (s : Slot)
    (rest : List Slot) (hE : (stopLoop env (i + 1) c rest).exc = none) :
    (stopLoop env i c (s :: rest)).exc =
      (stopOne env i s (stopLoop env (i + 1) c rest).clock).exc := by
  simp [stopLoop, hE]

theorem stopLoop_cons_ok_count (env : Env) (i c : Nat) (s : Slot)
    (rest : List Slot) (hE : (stopLoop env (i + 1) c rest).exc = none) :
    (stopLoop env i c (s :: rest)).count =
      (stopLoop env (i + 1) c rest).count +
        (if (stopOne env i s (stopLoop env (i + 1) c rest).clock).counted
          then 1 else 0) := by
  simp [stopLoop, hE]

theorem stopLoop_length (env : Env) :
    ∀ (L : List Slot) (i c : Nat),
      (stopLoop env i c L).slots.length = L.length := by
  intro L
  induction L with
  | nil => intro i c; rfl
  | cons s rest ih =>
      intro i c
      cases hE : (stopLoop env (i + 1) c rest).exc with
      | some e =>
          rw [stopLoop_cons_err_slots env i c s rest e hE]
          simp [ih]
      | none =>
          rw [stopLoop_cons_ok_slots env i c s rest hE]
          simp [ih]

theorem stopLoop_forall2 (env : Env) :
    ∀ (L : List Slot) (i c : Nat),
      List.Forall₂ (fun s s2 =>
        s2.builder = s.builder ∧
        (running s = false → s2 = s) ∧
        (SlotInv s → SlotInv s2) ∧
        (∀ t, s2.thread = some t → s.thread = some t)) L (stopLoop env i c L).slots := by
  intro L
  induction L with
  | nil => intro i c; exact List.Forall₂.nil
  | cons s rest ih =>
      intro i c
      cases hE : (stopLoop env (i + 1) c rest).exc with
      | some e =>
          rw [stopLoop_cons_err_slots env i c s rest e hE]
          exact List.Forall₂.cons ⟨rfl, fun _ => rfl, fun h => h, fun t ht => ht⟩
            (ih _ _)
      | none =>
          rw [stopLoop_cons_ok_slots env i c s rest hE]
          obtain ⟨p1, p2, p3, p4, p5, p6, p7, p8, p9, p10⟩ :=
            stopOne_spec env i s (stopLoop env (i + 1) c rest).clock _ rfl
          refine List.Forall₂.cons ⟨p2, ?_, p9, p10⟩ (ih _ _)
          intro hrun
          rw [p1 hrun]

theorem stopLoop_evIdx_ge (env : Env) :
    ∀ (L : List Slot) (i c : Nat),
      ∀ e ∈ (stopLoop env i c L).evs, i ≤ evIdx e := by
  intro L
  induction L with
  | nil => intro i c e he; cases he
  | cons s rest ih =>
      intro i c e
      cases hE : (stopLoop env (i + 1) c rest).exc with
      | some e2 =>
          rw [stopLoop_cons_err_evs env i c s rest e2 hE]
          intro he
          exact Nat.le_trans (Nat.le_succ i) (ih _ _ e he)
      | none =>
          rw [stopLoop_cons_ok_evs env i c s rest hE]
          intro he
          obtain ⟨p1, p2, p3, p4, p5, p6, p7, p8, p9, p10⟩ :=
            stopOne_spec env i s (stopLoop env (i + 1) c rest).clock _ rfl
          rcases List.mem_append.mp he with h | h
          · exact Nat.le_trans (Nat.le_succ i) (ih _ _ e h)
          · exact Nat.le_of_eq (p7 e h).symm

theorem stopLoop_success (env : Env) :
    ∀ (L : List Slot) (i c : Nat),
      (stopLoop env i c L).exc = none →
      List.Forall₂ (fun s s2 =>
        s2 = (if running s then (⟨s.builder, none, false⟩ : Slot) else s))
        L (stopLoop env i c L).slots ∧
      joinsOf (stopLoop env i c L).evs = (runningIdx i L).reverse ∧
      (stopLoop env i c L).count = (runningIdx i L).length := by
  intro L
  induction L with
  | nil =>
      intro i c _
      exact ⟨List.Forall₂.nil, rfl, rfl⟩
  | cons s rest ih =>
      intro i c hok
      cases hE : (stopLoop env (i + 1) c rest).exc with
      | some e =>
          rw [stopLoop_cons_err_exc env i c s rest e hE] at hok
          cases hok
      | none =>
          rw [stopLoop_cons_ok_exc env i c s rest hE] at hok
          obtain ⟨p1, p2, p3, p4, p5, p6, p7, p8, p9, p10⟩ :=
            stopOne_spec env i s (stopLoop env (i + 1) c rest).clock _ rfl
          obtain ⟨ih1, ih2, ih3⟩ := ih (i + 1) c hE
          refine ⟨?_, ?_, ?_⟩
          · rw [stopLoop_cons_ok_slots env i c s rest hE]
            exact List.Forall₂.cons (p4 hok) ih1
          · rw [stopLoop_cons_ok_evs env i c s rest hE, joinsOf_append,
              ih2, p6 hok]
            cases hRun : running s <;> simp [runningIdx, hRun]
          · rw [stopLoop_cons_ok_count env i c s rest hE, ih3, p5 hok]
            cases hRun : running s <;> simp [runningIdx, hRun]

theorem stopLoop_skip (env : Env) :
    ∀ (L : List Slot) (i c k : Nat), k < L.length →
      running (L.getD k defaultSlot) = false →
      (stopLoop env i c L).slots.getD k defaultSlot = L.getD k defaultSlot ∧
      (∀ e ∈ (stopLoop env i c L).evs, evIdx e ≠ i + k) := by
  intro L
  induction L with
  | nil => intro i c k hk; cases hk
  | cons s rest ih =>
      intro i c k hk hrun
      cases hE : (stopLoop env (i + 1) c rest).exc with
      | some e =>
          rw [stopLoop_cons_err_slots env i c s rest e hE,
            stopLoop_cons_err_evs env i c s rest e hE]
          cases k with
          | zero =>
              refine ⟨rfl, ?_⟩
              intro e2 he2
              have := stopLoop_evIdx_ge env rest (i + 1) c e2 he2
              omega
          | succ k2 =>
              simp only [List.getD_cons_succ] at hrun ⊢
              obtain ⟨q1, q2⟩ := ih (i + 1) c k2 (by simpa using hk) hrun
              refine ⟨q1, ?_⟩
              intro e2 he2
              have := q2 e2 he2
              omega
      | none =>
          rw [stopLoop_cons_ok_slots env i c s rest hE,
            stopLoop_cons_ok_evs env i c s rest hE]
          obtain ⟨p1, p2, p3, p4, p5, p6, p7, p8, p9, p10⟩ :=
            stopOne_spec env i s (stopLoop env (i + 1) c rest).clock _ rfl
          cases k with
          | zero =>
              simp only [List.getD_cons_zero] at hrun ⊢
              have hskip := p1 hrun
              refine ⟨by rw [hskip], ?_⟩
              intro e2 he2
              rcases List.mem_append.mp he2 with h | h
              · have := stopLoop_evIdx_ge env rest (i + 1) c e2 h
                omega
              · rw [hskip] at h
                cases h
          | succ k2 =>
              simp only [List.getD_cons_succ] at hrun ⊢
              obtain ⟨q1, q2⟩ := ih (i + 1) c k2 (by simpa using hk) hrun
              refine ⟨q1, ?_⟩
              intro e2 he2
              rcases List.mem_append.mp he2 with h | h
              · have := q2 e2 h
                omega
              · have := p7 e2 h
                omega

theorem stopLoop_afterJoin_err (env : Env) :
    ∀ (L : List Slot) (i c t : Nat),
      (stopLoop env i c L).exc = some (Exc.afterJoinRaise t) →
      ∃ k, i ≤ k ∧ k < i + L.length ∧
        (stopLoop env i c L).evs.getLast? = some (Ev.afterJoinCall k) ∧
        ((stopLoop env i c L).slots.getD (k - i) defaultSlot).thread = none ∧
        ((stopLoop env i c L).slots.getD (k - i) defaultSlot).started = false := by
  intro L
  induction L with
  | nil => intro i c t he; cases he
  | cons s rest ih =>
      intro i c t he
      cases hE : (stopLoop env (i + 1) c rest).exc with
      | some e2 =>
          rw [stopLoop_cons_err_exc env i c s rest e2 hE] at he
          have he2 : e2 = Exc.afterJoinRaise t := by cases he; rfl
          subst he2
          obtain ⟨k, hk1, hk2, hk3, hk4, hk5⟩ := ih (i + 1) c t hE
          refine ⟨k, by omega, by simpa using (by omega : k < i + (rest.length + 1)),
            ?_, ?_, ?_⟩
          · rw [stopLoop_cons_err_evs env i c s rest _ hE]
            exact hk3
          · have hki : k - i = (k - (i + 1)) + 1 := by omega
            rw [stopLoop_cons_err_slots env i c s rest _ hE, hki]
            simpa [List.getD] using hk4
          · have hki : k - i = (k - (i + 1)) + 1 := by omega
            rw [stopLoop_cons_err_slots env i c s rest _ hE, hki]
            simpa [List.getD] using hk5
      | none =>
          rw [stopLoop_cons_ok_exc env i c s rest hE] at he
          obtain ⟨p1, p2, p3, p4, p5, p6, p7, p8, p9, p10⟩ :=
            stopOne_spec env i s (stopLoop env (i + 1) c rest).clock _ rfl
          obtain ⟨hth, hst, hlast⟩ := p8 t he
          have hne : (stopOne env i s (stopLoop env (i + 1) c rest).clock).evs ≠ [] := by
            intro hnil
            rw [hnil] at hlast
            cases hlast
          refine ⟨i, Nat.le_refl i, by simp only [List.length_cons]; omega, ?_, ?_, ?_⟩
          · rw [stopLoop_cons_ok_evs env i c s rest hE,
              List.getLast?_append_of_ne_nil _ hne]
            exact hlast
          · rw [stopLoop_cons_ok_slots env i c s rest hE]
            simpa using hth
          · rw [stopLoop_cons_ok_slots env i c s rest hE]
            simpa using hst

theorem stopLoop_none_running (env : Env) :
    ∀ (L : List Slot) (i c : Nat),
      (∀ s ∈ L, running s = false) →
      stopLoop env i c L = ⟨L, c, 0, none, []⟩ := by
  intro L
  induction L with
  | nil => intro i c _; rfl
  | cons s rest ih =>
      intro i c hall
      have h2 := ih (i + 1) c (fun s2 hs2 => hall s2 (List.mem_cons_of_mem _ hs2))
      obtain ⟨p1, _⟩ := stopOne_spec env i s c _ rfl
      have h1 := p1 (hall s (List.mem_cons_self _ _))
      simp [stopLoop, h2, h1]

theorem start_threads (env : Env) (b : Bundle) :
    (start env b).bundle.threads =
      (startLoop env 0 b.clock b.nextId b.factoryCalls b.threads).slots := rfl

theorem start_nextId (env : Env) (b : Bundle) :
    (start env b).bundle.nextId =
      (startLoop env 0 b.clock b.nextId b.factoryCalls b.threads).nextId := rfl

theorem start_fc (env : Env) (b : Bundle) :
    (start env b).bundle.factoryCalls =
      (startLoop env 0 b.clock b.nextId b.factoryCalls b.threads).fc := rfl

theorem start_evs (env : Env) (b : Bundle) :
    (start env b).evs =
      (startLoop env 0 b.clock b.nextId b.factoryCalls b.threads).evs := rfl

theorem start_result_ok (env : Env) (b : Bundle)
    (h : (startLoop env 0 b.clock b.nextId b.factoryCalls b.threads).exc = none) :
    (start env b).result =
      Except.ok (startLoop env 0 b.clock b.nextId b.factoryCalls b.threads).count := by
  simp [start, h]

theorem start_result_err (env : Env) (b : Bundle) (e : Exc)
    (h : (startLoop env 0 b.clock b.nextId b.factoryCalls b.threads).exc = some e) :
    (start env b).result = Except.error e := by
  simp [start, h]

theorem start_ok_exc (env : Env) (b : Bundle) (n : Nat)
    (h : (start env b).result = Except.ok n) :
    (startLoop env 0 b.clock b.nextId b.factoryCalls b.threads).exc = none ∧
    (startLoop env 0 b.clock b.nextId b.factoryCalls b.threads).count = n := by
  cases hE : (startLoop env 0 b.clock b.nextId b.factoryCalls b.threads).exc with
  | some e =>
      rw [start_result_err env b e hE] at h
      cases h
  | none =>
      rw [start_result_ok env b hE] at h
      cases h
      exact ⟨rfl, rfl⟩

theorem start_err_exc (env : Env) (b : Bundle) (e : Exc)
    (h : (start env b).result = Except.error e) :
    (startLoop env 0 b.clock b.nextId b.factoryCalls b.threads).exc = some e := by
  cases hE : (startLoop env 0 b.clock b.nextId b.factoryCalls b.threads).exc with
  | some e2 =>
      rw [start_result_err env b e2 hE] at h
      cases h
      exact rfl
  | none =>
      rw [start_result_ok env b hE] at h
      cases h

theorem stop_threads (env : Env) (b : Bundle) :
    (stop env b).bundle.threads = (stopLoop env 0 b.clock b.threads).slots := rfl

theorem stop_nextId (env : Env) (b : Bundle) :
    (stop env b).bundle.nextId = b.nextId := rfl

theorem stop_fc (env : Env) (b : Bundle) :
    (stop env b).bundle.factoryCalls = b.factoryCalls := rfl

theorem stop_evs (env : Env) (b : Bundle) :
    (stop env b).evs = (stopLoop env 0 b.clock b.threads).evs := rfl

theorem stop_result_ok (env : Env) (b : Bundle)
    (h : (stopLoop env 0 b.clock b.threads).exc = none) :
    (stop env b).result = Except.ok (stopLoop env 0 b.clock b.threads).count := by
  simp [stop, h]

theorem stop_result_err (env : Env) (b : Bundle) (e : Exc)
    (h : (stopLoop env 0 b.clock b.threads).exc = some e) :
    (stop env b).result = Except.error e := by
  simp [stop, h]

theorem stop_ok_exc (env : Env) (b : Bundle) (n : Nat)
    (h : (stop env b).result = Except.ok n) :
    (stopLoop env 0 b.clock b.threads).exc = none ∧
    (stopLoop env 0 b.clock b.threads).count = n := by
  cases hE : (stopLoop env 0 b.clock b.threads).exc with
  | some e =>
      rw [stop_result_err env b e hE] at h
      cases h
  | none =>
      rw [stop_result_ok env b hE] at h
      cases h
      exact ⟨rfl, rfl⟩

theorem stop_err_exc (env : Env) (b : Bundle) (e : Exc)
    (h : (stop env b).result = Except.error e) :
    (stopLoop env 0 b.clock b.threads).exc = some e := by
  cases hE : (stopLoop env 0 b.clock b.threads).exc with
  | some e2 =>
      rw [stop_result_err env b e2 hE] at h
      cases h
      exact rfl
  | none =>
      rw [stop_result_ok env b hE] at h
      cases h

theorem bind_ok_shape (b : Bundle) (f bst ast bjn ajn : Arg) (b2 : Bundle)
    (h : bind b f bst ast bjn ajn = Except.ok b2) :
    b2.threads = b.threads ++
      [⟨⟨f.factoryBehavior, bst.toHook, ast.toHook, bjn.toHook, ajn.toHook⟩,
        none, false⟩] ∧
    b2.clock = b.clock ∧ b2.nextId = b.nextId ∧
    b2.factoryCalls = b.factoryCalls := by
  unfold bind at h
  split_ifs at h
  cases h
  exact ⟨rfl, rfl, rfl, rfl⟩

theorem bundleInv_applyOp (b : Bundle) (op : Op)
    (hInv : BundleInv b) : BundleInv (applyOp b op) := by
  obtain ⟨hSlot, hIds⟩ := hInv
  cases op with
  | opBind f bst ast bjn ajn =>
      show BundleInv (match bind b f bst ast bjn ajn with
        | .ok b2 => b2
        | .error _ => b)
      cases hB : bind b f bst ast bjn ajn with
      | error e => exact ⟨hSlot, hIds⟩
      | ok b2 =>
          obtain ⟨h1, h2, h3, h4⟩ := bind_ok_shape b f bst ast bjn ajn b2 hB
          constructor
          · intro s hs
            rw [h1] at hs
            rcases List.mem_append.mp hs with h | h
            · exact hSlot s h
            · simp only [List.mem_singleton] at h
              subst h
              intro hstart
              cases hstart
          · intro s hs t ht
            rw [h1] at hs
            rw [h3]
            rcases List.mem_append.mp hs with h | h
            · exact hIds s h t ht
            · simp only [List.mem_singleton] at h
              subst h
              cases ht
  | opStart env =>
      show BundleInv (start env b).bundle
      constructor
      · intro s hs
        rw [start_threads] at hs
        obtain ⟨x, hx, hR⟩ := forall2_mem_right
          (startLoop_forall2 env b.threads 0 b.clock b.nextId b.factoryCalls) s hs
        exact hR.2.2.2 (hSlot x hx)
      · intro s hs t ht
        rw [start_threads] at hs
        rw [start_nextId]
        exact startLoop_idsBelow env b.threads 0 b.clock b.nextId b.factoryCalls
          hIds s hs t ht
  | opStop env =>
      show BundleInv (stop env b).bundle
      constructor
      · intro s hs
        rw [stop_threads] at hs
        obtain ⟨x, hx, hR⟩ := forall2_mem_right
          (stopLoop_forall2 env b.threads 0 b.clock) s hs
        exact hR.2.2.1 (hSlot x hx)
      · intro s hs t ht
        rw [stop_threads] at hs
        rw [stop_nextId]
        obtain ⟨x, hx, hR⟩ := forall2_mem_right
          (stopLoop_forall2 env b.threads 0 b.clock) s hs
        exact hIds x hx t (hR.2.2.2 t ht)

theorem bundleInv_foldl (ops : List Op) :
    ∀ (b : Bundle), BundleInv b → BundleInv (ops.foldl applyOp b) := by
  induction ops with
  | nil => intro b h; exact h
  | cons op rest ih =>
      intro b h
      exact ih (applyOp b op) (bundleInv_applyOp b op h)

theorem bundleInv_run (ops : List Op) : BundleInv (run ops) := by
  refine bundleInv_foldl ops initBundle ⟨?_, ?_⟩
  · intro s hs; cases hs
  · intro s hs; cases hs

theorem pendingIdx_ne_nil :
    ∀ (L : List Slot) (i : Nat), (∃ s ∈ L, running s = false) →
      pendingIdx i L ≠ [] := by
  intro L
  induction L with
  | nil =>
      intro i h
      rcases h with ⟨s, hs, _⟩
      cases hs
  | cons s rest ih =>
      intro i h
      rcases h with ⟨s2, hs2, hrun2⟩
      rcases List.mem_cons.mp hs2 with h1 | h1
      · subst h1
        simp [pendingIdx, hrun2]
      · cases hRun : running s
        · simp [pendingIdx, hRun]
        · simp only [pendingIdx, hRun, if_true]
          exact ih (i + 1) ⟨s2, h1, hrun2⟩

theorem absentIdx_mem :
    ∀ (L : List Slot) (i k : Nat), k < L.length →
      (L.getD k defaultSlot).thread = none → (i + k) ∈ absentIdx i L := by
  intro L
  induction L with
  | nil => intro i k hk; cases hk
  | cons s rest ih =>
      intro i k hk hth
      cases k with
      | zero =>
          simp only [List.getD_cons_zero] at hth
          simp [absentIdx, hth]
      | succ k2 =>
          simp only [List.getD_cons_succ] at hth
          have := ih (i + 1) k2 (by simpa using hk) hth
          have harith : i + (k2 + 1) = (i + 1) + k2 := by omega
          rw [harith]
          cases hTh : s.thread <;> simp [absentIdx, hTh] <;>
            [exact Or.inr this; exact this]

theorem startLoop_no_construct (env : Env) :
    ∀ (L : List Slot) (i c n f : Nat),
      (∀ s ∈ L, s.thread.isSome = true) →
      (startLoop env i c n f L).fc = f ∧
      factsOf (startLoop env i c n f L).evs = [] := by
  intro L
  induction L with
  | nil => intro i c n f _; exact ⟨rfl, rfl⟩
  | cons s rest ih =>
      intro i c n f hall
      obtain ⟨o1, o2, o3, o4, o5, o6, o7, o8, o9, o10, o11, o12, o13,
        o14, o15, o16⟩ := startOne_spec env i s c n f _ rfl
      have hsome := hall s (List.mem_cons_self _ _)
      rcases Option.isSome_iff_exists.mp hsome with ⟨t0, ht0⟩
      obtain ⟨h1, h2, h3, h4⟩ := o3 t0 ht0
      cases hE : (startOne env i s c n f).exc with
      | some e =>
          rw [startLoop_cons_err_evs env i c n f s rest e hE]
          refine ⟨?_, h4⟩
          have : (startLoop env i c n f (s :: rest)).fc = (startOne env i s c n f).fc := by
            simp [startLoop, hE]
          rw [this, h3]
      | none =>
          obtain ⟨ih1, ih2⟩ := ih (i + 1) (startOne env i s c n f).clock
            (startOne env i s c n f).nextId (startOne env i s c n f).fc
            (fun s2 hs2 => hall s2 (List.mem_cons_of_mem _ hs2))
          constructor
          · have : (startLoop env i c n f (s :: rest)).fc =
                (startLoop env (i + 1) (startOne env i s c n f).clock
                  (startOne env i s c n f).nextId (startOne env i s c n f).fc rest).fc := by
              simp [startLoop, hE]
            rw [this, ih1, h3]
          · rw [startLoop_cons_ok_evs env i c n f s rest hE, factsOf_append, h4, ih2]
            rfl

/-- Claim C2: for every sequence of bind/start/stop operations (including
ones where a lifecycle callback raises), every slot of the resulting bundle
satisfies the invariant that `started = true` implies the slot's thread is
present; equivalently a slot with an absent thread has `started = false`. -/
theorem started_implies_thread_present (ops : List Op) :
    ∀ s ∈ (run ops).threads, s.started = true → s.thread.isSome = true :=
  fun s hs => (bundleInv_run ops).1 s hs

theorem started_implies_thread_present_witness :
    ((run opsW2).threads.getD 0 defaultSlot).thread.isSome = true := by
  refine started_implies_thread_present opsW2 _ ?_ ?_
  · show ((run opsW2).threads.getD 0 defaultSlot) ∈ (run opsW2).threads
    exact List.Mem.head _
  · rfl

/-- Claim C3: `start()` walks the slots in insertion order, skips a slot
exactly when its thread is present and `started` is true, constructs a
thread only when the slot's thread is absent, constructs and starts each
slot at most once per call, and on success returns the number of slots
actually (re)started (already-running slots are unchanged and not
recounted): the `threadStart` trace equals the in-order list of indices of
not-running slots, and the `factoryCall` trace equals the in-order list of
indices of thread-absent slots. -/
theorem start_walk_contract (env : Env) (b : Bundle) :
    (start env b).bundle.threads.length = b.threads.length ∧
    List.Forall₂ (fun s s2 =>
      (running s = true → s2 = s) ∧
      (∀ t, s.thread = some t → s2.thread = some t))
      b.threads (start env b).bundle.threads ∧
    (factsOf (start env b).evs).Nodup ∧
    (startsOf (start env b).evs).Nodup ∧
    (∀ n, (start env b).result = Except.ok n →
      startsOf (start env b).evs = pendingIdx 0 b.threads ∧
      factsOf (start env b).evs = absentIdx 0 b.threads ∧
      n = (pendingIdx 0 b.threads).length) := by
  refine ⟨?_, ?_, ?_, ?_, ?_⟩
  · rw [start_threads]
    exact startLoop_length env b.threads 0 _ _ _
  · rw [start_threads]
    refine List.Forall₂.imp ?_
      (startLoop_forall2 env b.threads 0 b.clock b.nextId b.factoryCalls)
    intro s s2 h
    exact ⟨h.2.1, h.2.2.1⟩
  · rw [start_evs]
    exact List.Pairwise.imp (fun h => Nat.ne_of_lt h)
      (startLoop_pairwise env b.threads 0 b.clock b.nextId b.factoryCalls).1
  · rw [start_evs]
    exact List.Pairwise.imp (fun h => Nat.ne_of_lt h)
      (startLoop_pairwise env b.threads 0 b.clock b.nextId b.factoryCalls).2
  · intro n hn
    obtain ⟨hexc, hcount⟩ := start_ok_exc env b n hn
    obtain ⟨h1, h2, h3, h4⟩ := startLoop_success env b.threads 0 b.clock
      b.nextId b.factoryCalls hexc
    rw [start_evs]
    exact ⟨h2, h3, by rw [← hcount, h4]⟩

theorem start_walk_contract_witness :
    startsOf (start envW (run opsW3)).evs = pendingIdx 0 (run opsW3).threads ∧
    factsOf (start envW (run opsW3)).evs = absentIdx 0 (run opsW3).threads ∧
    3 = (pendingIdx 0 (run opsW3).threads).length :=
  (start_walk_contract envW (run opsW3)).2.2.2.2 3 rfl

/-- Claim C4: `stop()` walks the slots in reverse insertion order, skips a
slot exactly when its thread is absent or `started` is false, resets every
joined slot to `thread = none, started = false`, and on success returns the
number of slots actually joined: the `threadJoin` trace equals the reverse
of the in-order list of running-slot indices; moreover after a full
successful `start()` then `stop()` cycle every slot is back to
`thread = none, started = false`. -/
theorem stop_walk_contract (env : Env) (b : Bundle) :
    (stop env b).bundle.threads.length = b.threads.length ∧
    List.Forall₂ (fun s s2 => running s = false → s2 = s)
      b.threads (stop env b).bundle.threads ∧
    (∀ n, (stop env b).result = Except.ok n →
      List.Forall₂ (fun s s2 =>
        s2 = (if running s then (⟨s.builder, none, false⟩ : Slot) else s))
        b.threads (stop env b).bundle.threads ∧
      joinsOf (stop env b).evs = (runningIdx 0 b.threads).reverse ∧
      n = (runningIdx 0 b.threads).length) ∧
    (∀ (env2 : Env) (n m : Nat), (start env2 b).result = Except.ok n →
      (stop env (start env2 b).bundle).result = Except.ok m →
      ∀ s ∈ (stop env (start env2 b).bundle).bundle.threads,
        s.thread = none ∧ s.started = false) := by
  refine ⟨?_, ?_, ?_, ?_⟩
  · rw [stop_threads]
    exact stopLoop_length env b.threads 0 _
  · rw [stop_threads]
    refine List.Forall₂.imp ?_ (stopLoop_forall2 env b.threads 0 b.clock)
    intro s s2 h
    exact h.2.1
  · intro n hn
    obtain ⟨hexc, hcount⟩ := stop_ok_exc env b n hn
    obtain ⟨h1, h2, h3⟩ := stopLoop_success env b.threads 0 b.clock hexc
    rw [stop_threads, stop_evs]
    exact ⟨h1, h2, by rw [← hcount, h3]⟩
  · intro env2 n m hstart hstop s hs
    obtain ⟨hexcS, _⟩ := start_ok_exc env2 b n hstart
    obtain ⟨hF2, _, _, _⟩ := startLoop_success env2 b.threads 0 b.clock
      b.nextId b.factoryCalls hexcS
    have hallrun : ∀ x ∈ (start env2 b).bundle.threads, running x = true := by
      intro x hx
      rw [start_threads] at hx
      obtain ⟨y, _, hR⟩ := forall2_mem_right hF2 x hx
      exact hR.1
    obtain ⟨hexcP, _⟩ := stop_ok_exc env (start env2 b).bundle m hstop
    obtain ⟨hG, _, _⟩ := stopLoop_success env (start env2 b).bundle.threads 0
      (start env2 b).bundle.clock hexcP
    rw [stop_threads] at hs
    obtain ⟨y, hy, hR⟩ := forall2_mem_right hG s hs
    rw [hR, hallrun y hy]
    exact ⟨rfl, rfl⟩

theorem stop_walk_contract_witness :
    List.Forall₂ (fun s s2 =>
      s2 = (if running s then (⟨s.builder, none, false⟩ : Slot) else s))
      (run opsW2).threads (stop envW (run opsW2)).bundle.threads ∧
    joinsOf (stop envW (run opsW2)).evs =
      (runningIdx 0 (run opsW2).threads).reverse ∧
    1 = (runningIdx 0 (run opsW2).threads).length :=
  (stop_walk_contract envW (run opsW2)).2.2.1 1 rfl

/-- Claim C5: in both `start()` and `stop()`, when the after-hook raises
(`after_start` in start, `after_join` in stop) the failing slot's
bookkeeping transition still completes before the exception propagates:
`start` leaves that slot started (thread present, `started = true`), and
`stop` leaves it reset to `thread = none, started = false`; the failing
slot is the one whose after-hook call is the last trace event. -/
theorem after_hook_crash_bookkeeping (env : Env) (b : Bundle) (t : Nat) :
    ((start env b).result = Except.error (Exc.afterStartRaise t) →
      ∃ k, k < b.threads.length ∧
        (start env b).evs.getLast? = some (Ev.afterStartCall k) ∧
        running ((start env b).bundle.threads.getD k defaultSlot) = true) ∧
    ((stop env b).result = Except.error (Exc.afterJoinRaise t) →
      ∃ k, k < b.threads.length ∧
        (stop env b).evs.getLast? = some (Ev.afterJoinCall k) ∧
        ((stop env b).bundle.threads.getD k defaultSlot).thread = none ∧
        ((stop env b).bundle.threads.getD k defaultSlot).started = false) := by
  constructor
  · intro he
    have hexc := start_err_exc env b _ he
    obtain ⟨k, hk1, hk2, hk3, hk4⟩ := startLoop_afterStart_err env b.threads 0
      b.clock b.nextId b.factoryCalls t hexc
    refine ⟨k, by simpa using hk2, ?_, ?_⟩
    · rw [start_evs]
      exact hk3
    · rw [start_threads]
      simpa using hk4
  · intro he
    have hexc := stop_err_exc env b _ he
    obtain ⟨k, hk1, hk2, hk3, hk4, hk5⟩ := stopLoop_afterJoin_err env b.threads 0
      b.clock t hexc
    refine ⟨k, by simpa using hk2, ?_, ?_, ?_⟩
    · rw [stop_evs]
      exact hk3
    · rw [stop_threads]
      simpa using hk4
    · rw [stop_threads]
      simpa using hk5

theorem after_hook_crash_bookkeeping_witness :
    (∃ k, k < (run opsC5w).threads.length ∧
      (start envW (run opsC5w)).evs.getLast? = some (Ev.afterStartCall k) ∧
      running ((start envW (run opsC5w)).bundle.threads.getD k defaultSlot) = true) ∧
    (∃ k, k < (run opsC5js).threads.length ∧
      (stop envW (run opsC5js)).evs.getLast? = some (Ev.afterJoinCall k) ∧
      ((stop envW (run opsC5js)).bundle.threads.getD k defaultSlot).thread = none ∧
      ((stop envW (run opsC5js)).bundle.threads.getD k defaultSlot).started = false) :=
  ⟨(after_hook_crash_bookkeeping envW (run opsC5w) 2).1 rfl,
   (after_hook_crash_bookkeeping envW (run opsC5js) 3).2 rfl⟩

/-- Claim C6: `bind` raises a validation error exactly when the factory is
missing or non-callable, or when a provided (non-absent) callback is
non-callable; a missing/non-callable factory is reported as
`"thread_factory"`; the error is raised before the registration is
appended, so a failed bind leaves the bundle completely unchanged, and a
successful bind appends exactly one fresh slot. -/
theorem bind_validation (b : Bundle) (f bst ast bjn ajn : Arg) :
    ((∃ e, bind b f bst ast bjn ajn = Except.error e) ↔
      (f.isCallable = false ∨ hookOk bst = false ∨ hookOk ast = false ∨
        hookOk bjn = false ∨ hookOk ajn = false)) ∧
    (f.isCallable = false →
      bind b f bst ast bjn ajn = Except.error (Exc.valueError "thread_factory")) ∧
    (∀ e, bind b f bst ast bjn ajn = Except.error e →
      applyOp b (Op.opBind f bst ast bjn ajn) = b) ∧
    (∀ b2, bind b f bst ast bjn ajn = Except.ok b2 →
      b2.threads = b.threads ++ [⟨⟨f.factoryBehavior, bst.toHook, ast.toHook,
        bjn.toHook, ajn.toHook⟩, none, false⟩] ∧
      b2.threads.length = b.threads.length + 1) := by
  refine ⟨?_, ?_, ?_, ?_⟩
  · constructor
    · rintro ⟨e, he⟩
      unfold bind at he
      split_ifs at he with h1 h2 h3 h4 h5 <;> simp_all
    · intro h
      unfold bind
      split_ifs with h1 h2 h3 h4 h5
      · exfalso
        rcases h with h | h | h | h | h <;> simp_all
      · exact ⟨_, rfl⟩
      · exact ⟨_, rfl⟩
      · exact ⟨_, rfl⟩
      · exact ⟨_, rfl⟩
      · exact ⟨_, rfl⟩
  · intro h
    unfold bind
    simp [h]
  · intro e he
    show (match bind b f bst ast bjn ajn with
      | .ok b2 => b2
      | .error _ => b) = b
    rw [he]
  · intro b2 h
    obtain ⟨h1, _⟩ := bind_ok_shape b f bst ast bjn ajn b2 h
    refine ⟨h1, ?_⟩
    rw [h1]
    simp

theorem bind_validation_witness :
    bind initBundle Arg.vNotCallable Arg.vNone Arg.vNone Arg.vNone Arg.vNone =
      Except.error (Exc.valueError "thread_factory") ∧
    applyOp initBundle (Op.opBind Arg.vNotCallable Arg.vNone Arg.vNone
      Arg.vNone Arg.vNone) = initBundle ∧
    (∃ e, bind initBundle argOk Arg.vNotCallable Arg.vNone Arg.vNone Arg.vNone =
      Except.error e) := by
  have h := bind_validation initBundle Arg.vNotCallable Arg.vNone Arg.vNone
    Arg.vNone Arg.vNone
  have h2 := bind_validation initBundle argOk Arg.vNotCallable Arg.vNone
    Arg.vNone Arg.vNone
  exact ⟨h.2.1 rfl, h.2.2.1 _ (h.2.1 rfl), h2.1.mpr (Or.inr (Or.inl rfl))⟩

/-- Claim C7: if a slot's factory or `before_start` raises during
`start()`, the exception propagates, no later slot is visited or modified
(later slots are unchanged and no trace event carries a later index), every
slot before the failing one is left running, and the failing slot's
`started` flag is unchanged. -/
theorem start_failure_partial_progress (env : Env) (b : Bundle) (e : Exc)
    (he : (start env b).result = Except.error e)
    (hkind : (∃ t, e = Exc.factoryRaise t) ∨ (∃ t, e = Exc.beforeStartRaise t)) :
    ∃ k, k < b.threads.length ∧
      (∀ s ∈ (start env b).bundle.threads.take k, running s = true) ∧
      (start env b).bundle.threads.drop (k + 1) = b.threads.drop (k + 1) ∧
      (∀ ev ∈ (start env b).evs, evIdx ev ≤ k) ∧
      ((start env b).bundle.threads.getD k defaultSlot).started =
        (b.threads.getD k defaultSlot).started := by
  have hexc := start_err_exc env b e he
  obtain ⟨k, hk1, hk2, hk3, hk4, hk5⟩ := startLoop_error env b.threads 0
    b.clock b.nextId b.factoryCalls e hexc hkind
  refine ⟨k, hk1, ?_, ?_, ?_, ?_⟩
  · rw [start_threads]
    exact hk2
  · rw [start_threads]
    exact hk3
  · intro ev hev
    rw [start_evs] at hev
    have := hk4 ev hev
    omega
  · rw [start_threads]
    exact hk5

theorem start_failure_partial_progress_witness :
    ∃ k, k < (run opsC7w).threads.length ∧
      (∀ s ∈ (start envW (run opsC7w)).bundle.threads.take k, running s = true) ∧
      (start envW (run opsC7w)).bundle.threads.drop (k + 1) =
        (run opsC7w).threads.drop (k + 1) ∧
      (∀ ev ∈ (start envW (run opsC7w)).evs, evIdx ev ≤ k) ∧
      ((start envW (run opsC7w)).bundle.threads.getD k defaultSlot).started =
        ((run opsC7w).threads.getD k defaultSlot).started :=
  start_failure_partial_progress envW (run opsC7w) (Exc.beforeStartRaise 3)
    rfl (Or.inr ⟨3, rfl⟩)

/-- Claim C8 counterexample: on a non-empty bundle that is already fully
started, two consecutive `start()` calls with no intervening `stop()`
return `0` and then `0` — the first call's count is not non-zero, refuting
the claim's parenthetical as stated. -/
theorem start_twice_zero_cex :
    (run opsW2).threads.length = 1 ∧
    (start envW (run opsW2)).result = Except.ok 0 ∧
    (start envW (start envW (run opsW2)).bundle).result = Except.ok 0 :=
  ⟨rfl, rfl, rfl⟩

/-- Claim C8 (amended): `start()` on a fully-started bundle performs no
per-slot work and returns 0 (the bundle, including its ghost state, is
unchanged and the trace is empty); symmetrically `stop()` when no slot is
running returns 0 and performs no work; and when at least one slot is not
running, a successful `start()` returns a non-zero count and an immediately
following `start()` returns 0. -/
theorem start_stop_idempotent :
    (∀ (env : Env) (b : Bundle), (∀ s ∈ b.threads, running s = true) →
      start env b = ⟨b, Except.ok 0, []⟩) ∧
    (∀ (env : Env) (b : Bundle), (∀ s ∈ b.threads, running s = false) →
      stop env b = ⟨b, Except.ok 0, []⟩) ∧
    (∀ (env env2 : Env) (b : Bundle) (n : Nat),
      (∃ s ∈ b.threads, running s = false) →
      (start env b).result = Except.ok n →
      n ≠ 0 ∧ (start env2 (start env b).bundle).result = Except.ok 0) := by
  have hstart : ∀ (env : Env) (b : Bundle), (∀ s ∈ b.threads, running s = true) →
      start env b = ⟨b, Except.ok 0, []⟩ := by
    intro env b hall
    have hL := startLoop_all_running env b.threads 0 b.clock b.nextId
      b.factoryCalls hall
    simp [start, hL]
  refine ⟨hstart, ?_, ?_⟩
  · intro env b hall
    have hL := stopLoop_none_running env b.threads 0 b.clock hall
    simp [stop, hL]
  · intro env env2 b n hex hok
    obtain ⟨hexc, hcount⟩ := start_ok_exc env b n hok
    obtain ⟨hF, _, _, h4⟩ := startLoop_success env b.threads 0 b.clock
      b.nextId b.factoryCalls hexc
    constructor
    · intro h0
      have hne := pendingIdx_ne_nil b.threads 0 hex
      rw [h0] at hcount
      rw [h4] at hcount
      exact hne (List.length_eq_zero.mp hcount)
    · have hall : ∀ s ∈ (start env b).bundle.threads, running s = true := by
        intro s hs
        rw [start_threads] at hs
        obtain ⟨y, _, hR⟩ := forall2_mem_right hF s hs
        exact hR.1
      rw [hstart env2 _ hall]

theorem start_stop_idempotent_witness :
    start envW (run opsW2) = ⟨run opsW2, Except.ok 0, []⟩ ∧
    stop envW (run opsW1) = ⟨run opsW1, Except.ok 0, []⟩ ∧
    (1 ≠ 0 ∧ (start envW (start envW (run opsW1)).bundle).result = Except.ok 0) := by
  have h := start_stop_idempotent
  refine ⟨h.1 envW (run opsW2) ?_, h.2.1 envW (run opsW1) ?_,
    h.2.2 envW envW (run opsW1) 1 ?_ rfl⟩
  · intro s hs
    have hth : (run opsW2).threads =
        [⟨⟨fun _ => false, none, none, none, none⟩, some 0, true⟩] := rfl
    rw [hth] at hs
    rcases List.mem_singleton.mp hs with h2
    rw [h2]
    rfl
  · intro s hs
    have hth : (run opsW1).threads =
        [⟨⟨fun _ => false, none, none, none, none⟩, none, false⟩] := rfl
    rw [hth] at hs
    rcases List.mem_singleton.mp hs with h2
    rw [h2]
    rfl
  · exact ⟨⟨⟨fun _ => false, none, none, none, none⟩, none, false⟩,
      List.Mem.head _, rfl⟩

/-- Claim C9: after `stop()` has fully joined a running slot (resetting it
to `thread = none, started = false`), a subsequent successful `start()`
invokes that slot's factory again (a `factoryCall` event for the slot) and
stores a newly constructed thread instance, distinct from the
previously-joined one. -/
theorem restart_fresh_thread (ops : List Op) (env2 env3 : Env) (k m n : Nat)
    (hk : k < (run ops).threads.length)
    (hrun : running ((run ops).threads.getD k defaultSlot) = true)
    (hstop : (stop env2 (run ops)).result = Except.ok m)
    (hstart : (start env3 (stop env2 (run ops)).bundle).result = Except.ok n) :
    ∃ tOld tNew,
      ((run ops).threads.getD k defaultSlot).thread = some tOld ∧
      ((stop env2 (run ops)).bundle.threads.getD k defaultSlot).thread = none ∧
      ((start env3 (stop env2 (run ops)).bundle).bundle.threads.getD k
        defaultSlot).thread = some tNew ∧
      tNew ≠ tOld ∧
      Ev.factoryCall k ∈ (start env3 (stop env2 (run ops)).bundle).evs := by
  have hsome : (((run ops).threads.getD k defaultSlot).thread).isSome = true := by
    simp only [running, Bool.and_eq_true] at hrun
    exact hrun.1
  rcases Option.isSome_iff_exists.mp hsome with ⟨tOld, hOld⟩
  have hmem : (run ops).threads.getD k defaultSlot ∈ (run ops).threads := by
    rw [List.getD_eq_getElem (run ops).threads defaultSlot hk]
    exact List.getElem_mem _
  have hOldLt : tOld < (run ops).nextId :=
    (bundleInv_run ops).2 _ hmem tOld hOld
  obtain ⟨hexcP, _⟩ := stop_ok_exc env2 (run ops) m hstop
  obtain ⟨hG, _, _⟩ := stopLoop_success env2 (run ops).threads 0
    (run ops).clock hexcP
  have hstopSlot := forall2_getD defaultSlot defaultSlot hG k hk
  have hreset : (stop env2 (run ops)).bundle.threads.getD k defaultSlot =
      ⟨((run ops).threads.getD k defaultSlot).builder, none, false⟩ := by
    rw [stop_threads]
    rw [hstopSlot, hrun]
    rfl
  have hthNone : ((stop env2 (run ops)).bundle.threads.getD k
      defaultSlot).thread = none := by
    rw [hreset]
  have hk2 : k < (stop env2 (run ops)).bundle.threads.length := by
    rw [stop_threads, stopLoop_length env2 (run ops).threads 0]
    exact hk
  obtain ⟨hexcS, _⟩ := start_ok_exc env3 (stop env2 (run ops)).bundle n hstart
  obtain ⟨hF, _, hfacts, _⟩ := startLoop_success env3
    (stop env2 (run ops)).bundle.threads 0 (stop env2 (run ops)).bundle.clock
    (stop env2 (run ops)).bundle.nextId (stop env2 (run ops)).bundle.factoryCalls
    hexcS
  have hslotS := forall2_getD defaultSlot defaultSlot hF k hk2
  rcases hslotS.2 hthNone with ⟨tNew, hNew, hge⟩
  refine ⟨tOld, tNew, hOld, hthNone, ?_, ?_, ?_⟩
  · rw [start_threads]
    exact hNew
  · have hnext : (stop env2 (run ops)).bundle.nextId = (run ops).nextId :=
      stop_nextId env2 (run ops)
    rw [hnext] at hge
    omega
  · have hmemA : (0 + k) ∈ absentIdx 0 (stop env2 (run ops)).bundle.threads :=
      absentIdx_mem (stop env2 (run ops)).bundle.threads 0 k hk2 hthNone
    rw [start_evs]
    refine (mem_factsOf k _).mp ?_
    rw [hfacts]
    simpa using hmemA

theorem restart_fresh_thread_witness :
    ∃ tOld tNew,
      ((run opsW2).threads.getD 0 defaultSlot).thread = some tOld ∧
      ((stop envW (run opsW2)).bundle.threads.getD 0 defaultSlot).thread = none ∧
      ((start envW (stop envW (run opsW2)).bundle).bundle.threads.getD 0
        defaultSlot).thread = some tNew ∧
      tNew ≠ tOld ∧
      Ev.factoryCall 0 ∈ (start envW (stop envW (run opsW2)).bundle).evs :=
  restart_fresh_thread opsW2 envW envW 0 1 1 (by decide) rfl rfl rfl

/-- Claim C10: `stop()` never joins a thread whose start was never invoked:
in any bundle state, a slot whose `started` flag is false (in particular
one holding a constructed thread left behind by a failed `before_start` or
`thread.start`) is skipped by `stop()` — it is left unmodified and no
before_join/join/after_join trace event carries its index. -/
theorem stop_skips_unstarted (env : Env) (b : Bundle) (k : Nat)
    (hk : k < b.threads.length)
    (_hsome : ((b.threads.getD k defaultSlot).thread).isSome = true)
    (hns : (b.threads.getD k defaultSlot).started = false) :
    (stop env b).bundle.threads.getD k defaultSlot =
      b.threads.getD k defaultSlot ∧
    ∀ e ∈ (stop env b).evs, evIdx e ≠ k := by
  have hrun : running (b.threads.getD k defaultSlot) = false := by
    simp only [running, hns, Bool.and_false]
  obtain ⟨q1, q2⟩ := stopLoop_skip env b.threads 0 b.clock k hk hrun
  refine ⟨?_, ?_⟩
  · rw [stop_threads]
    exact q1
  · intro e he
    rw [stop_evs] at he
    have := q2 e he
    omega

theorem stop_skips_unstarted_witness :
    ((stop envW (run opsC10w)).bundle.threads.getD 0 defaultSlot =
      (run opsC10w).threads.getD 0 defaultSlot) ∧
    ∀ e ∈ (stop envW (run opsC10w)).evs, evIdx e ≠ 0 :=
  stop_skips_unstarted envW (run opsC10w) 0 (by decide) rfl rfl

/-- Claim C1 counterexample: bind one registration whose `before_start`
always raises and call `start()`: the exception propagates, the thread was
constructed (one factory call, id 0 stored) and `started` stays false —
but a second `start()` does NOT invoke the factory again: the ghost factory
counter stays at 1 and the retry emits no `factoryCall` event, refuting the
claim's "fresh factory invocation". -/
theorem failed_before_start_no_retry_cex :
    (start envW (run opsC1w)).result = Except.error (Exc.beforeStartRaise 1) ∧
    ((start envW (run opsC1w)).bundle.threads.getD 0 defaultSlot).thread = some 0 ∧
    ((start envW (run opsC1w)).bundle.threads.getD 0 defaultSlot).started = false ∧
    (start envW (run opsC1w)).bundle.factoryCalls = 1 ∧
    (start envW (start envW (run opsC1w)).bundle).bundle.factoryCalls = 1 ∧
    Ev.factoryCall 0 ∉ (start envW (start envW (run opsC1w)).bundle).evs :=
  ⟨rfl, rfl, rfl, rfl, rfl, by decide⟩

/-- Claim C1 (amended): if a bound registration's `before_start` raises
during `start()`, the exception propagates, the slot's thread has been
constructed (the factory ran once) with `started` still false, and a
subsequent `start()` does not retry construction: it reuses the stored
thread instance — the factory-call counter stays at 1, no `factoryCall`
event occurs, and the slot still holds the originally constructed
thread. -/
theorem failed_before_start_retry_reuses_thread (env env2 : Env)
    (f bs : Behavior) (hf : f 0 = false) (hbs : bs 1 = true) :
    (start env (run [Op.opBind (Arg.vCallable f) (Arg.vCallable bs)
        Arg.vNone Arg.vNone Arg.vNone])).result =
      Except.error (Exc.beforeStartRaise 1) ∧
    ((start env (run [Op.opBind (Arg.vCallable f) (Arg.vCallable bs)
        Arg.vNone Arg.vNone Arg.vNone])).bundle.threads.getD 0
        defaultSlot).thread = some 0 ∧
    ((start env (run [Op.opBind (Arg.vCallable f) (Arg.vCallable bs)
        Arg.vNone Arg.vNone Arg.vNone])).bundle.threads.getD 0
        defaultSlot).started = false ∧
    (start env (run [Op.opBind (Arg.vCallable f) (Arg.vCallable bs)
        Arg.vNone Arg.vNone Arg.vNone])).bundle.factoryCalls = 1 ∧
    (start env2 (start env (run [Op.opBind (Arg.vCallable f) (Arg.vCallable bs)
        Arg.vNone Arg.vNone Arg.vNone])).bundle).bundle.factoryCalls = 1 ∧
    Ev.factoryCall 0 ∉ (start env2 (start env (run [Op.opBind (Arg.vCallable f)
        (Arg.vCallable bs) Arg.vNone Arg.vNone Arg.vNone])).bundle).evs ∧
    ((start env2 (start env (run [Op.opBind (Arg.vCallable f) (Arg.vCallable bs)
        Arg.vNone Arg.vNone Arg.vNone])).bundle).bundle.threads.getD 0
        defaultSlot).thread = some 0 := by
  have hb0 : run [Op.opBind (Arg.vCallable f) (Arg.vCallable bs)
      Arg.vNone Arg.vNone Arg.vNone] =
      ⟨[⟨⟨f, some bs, none, none, none⟩, none, false⟩], 0, 0, 0⟩ := rfl
  have h1 : startOne env 0 ⟨⟨f, some bs, none, none, none⟩, none, false⟩ 0 0 0 =
      ⟨⟨⟨f, some bs, none, none, none⟩, some 0, false⟩, 2, 1, 1, false,
        some (Exc.beforeStartRaise 1), [Ev.factoryCall 0, Ev.beforeStartCall 0]⟩ := by
    simp [startOne, startHooks, running, hf, hbs, Slot.setThread, SRes.withEvs]
  have hL1 : startLoop env 0 0 0 0
      [⟨⟨f, some bs, none, none, none⟩, none, false⟩] =
      ⟨[⟨⟨f, some bs, none, none, none⟩, some 0, false⟩], 2, 1, 1, 0,
        some (Exc.beforeStartRaise 1), [Ev.factoryCall 0, Ev.beforeStartCall 0]⟩ := by
    simp [startLoop, h1]
  have hrun1 : start env (run [Op.opBind (Arg.vCallable f) (Arg.vCallable bs)
      Arg.vNone Arg.vNone Arg.vNone]) =
      ⟨⟨[⟨⟨f, some bs, none, none, none⟩, some 0, false⟩], 2, 1, 1⟩,
        Except.error (Exc.beforeStartRaise 1),
        [Ev.factoryCall 0, Ev.beforeStartCall 0]⟩ := by
    rw [hb0]
    simp [start, hL1]
  set b1 : Bundle := ⟨[⟨⟨f, some bs, none, none, none⟩, some 0, false⟩], 2, 1, 1⟩
    with hb1
  have hsnd : (start env (run [Op.opBind (Arg.vCallable f) (Arg.vCallable bs)
      Arg.vNone Arg.vNone Arg.vNone])).bundle = b1 := by rw [hrun1]
  have hall : ∀ s ∈ b1.threads, (s.thread).isSome = true := by
    intro s hs
    rcases List.mem_singleton.mp hs with h2
    rw [h2]
    rfl
  obtain ⟨hfc2, hfacts2⟩ := startLoop_no_construct env2 b1.threads 0
    b1.clock b1.nextId b1.factoryCalls hall
  have hF2 := startLoop_forall2 env2 b1.threads 0 b1.clock b1.nextId b1.factoryCalls
  have hslot2 := forall2_getD defaultSlot defaultSlot hF2 0 (by exact Nat.zero_lt_one)
  refine ⟨by simp [hrun1], by simp [hrun1], by simp [hrun1],
    by simp [hrun1], ?_, ?_, ?_⟩
  · rw [hsnd]
    rw [start_fc env2 b1]
    exact hfc2
  · rw [hsnd, start_evs env2 b1]
    intro hmm
    have : (0 : Nat) ∈ factsOf (startLoop env2 0 b1.clock b1.nextId
        b1.factoryCalls b1.threads).evs := (mem_factsOf 0 _).mpr hmm
    rw [hfacts2] at this
    cases this
  · rw [hsnd, start_threads env2 b1]
    exact (hslot2.2.2.1 0 rfl)

theorem failed_before_start_retry_reuses_thread_witness :
    (start envW (run [Op.opBind (Arg.vCallable (fun _ => false))
        (Arg.vCallable (fun _ => true)) Arg.vNone Arg.vNone Arg.vNone])).result =
      Except.error (Exc.beforeStartRaise 1) ∧
    ((start envW (run [Op.opBind (Arg.vCallable (fun _ => false))
        (Arg.vCallable (fun _ => true)) Arg.vNone Arg.vNone
        Arg.vNone])).bundle.threads.getD 0 defaultSlot).thread = some 0 ∧
    ((start envW (run [Op.opBind (Arg.vCallable (fun _ => false))
        (Arg.vCallable (fun _ => true)) Arg.vNone Arg.vNone
        Arg.vNone])).bundle.threads.getD 0 defaultSlot).started = false ∧
    (start envW (run [Op.opBind (Arg.vCallable (fun _ => false))
        (Arg.vCallable (fun _ => true)) Arg.vNone Arg.vNone
        Arg.vNone])).bundle.factoryCalls = 1 ∧
    (start envW (start envW (run [Op.opBind (Arg.vCallable (fun _ => false))
        (Arg.vCallable (fun _ => true)) Arg.vNone Arg.vNone
        Arg.vNone])).bundle).bundle.factoryCalls = 1 ∧
    Ev.factoryCall 0 ∉ (start envW (start envW (run [Op.opBind
        (Arg.vCallable (fun _ => false)) (Arg.vCallable (fun _ => true))
        Arg.vNone Arg.vNone Arg.vNone])).bundle).evs ∧
    ((start envW (start envW (run [Op.opBind (Arg.vCallable (fun _ => false))
        (Arg.vCallable (fun _ => true)) Arg.vNone Arg.vNone
        Arg.vNone])).bundle).bundle.threads.getD 0 defaultSlot).thread = some 0 :=
  failed_before_start_retry_reuses_thread envW envW (fun _ => false)
    (fun _ => true) rfl rfl

end ThreadingUtils
